import Mathlib

/-!
# milk `_kmeans.cpp`: the two k-means kernels

A shallow embedding of `src/milk/unsupervised/_kmeans.cpp`.

* Flat C buffers are lists; `rd` and `wr` are the bounds-checked pointer read and
  write.  An access outside the buffer is undefined behaviour in C and yields
  `none` here, which then propagates through the whole call.
* The element type `ftype` is taken to be `ℚ` (exact arithmetic).  Dividing by a
  zero count has no value in `ℚ`; the embedding makes it a failure (`divq`), so a
  call that returns `some _` has performed no division by zero.
* `int` loop counters and dimensions are natural numbers, labels and counts are
  integers.  Buffers are taken to hold fewer than `2^31` cells, so that index
  products such as `i * Nf + j` and the counts do not wrap around.
* The OpenMP region of `computecentroids` is embedded by its schedule: the list
  of workers, each with the list of loop iterations it was handed, merged one
  worker after the other.
* The Python entry point `py_computecentroids` is embedded over what it reads of
  its arguments: whether each is a contiguous array, its element type and its
  dimensions.  A dimension is an `npy_intp`, taken to be 64 bits wide; its
  conversion to `int` on lines 173-175 keeps the low 32 bits (`narrow`).  Distinct
  arguments are taken not to share memory.
-/

namespace Kmeans

/-! ## Memory and loops -/

/-- The read `p[i]` of a flat buffer; `none` when `i` lies outside the buffer. -/
def rd {α : Type} (b : List α) (i : Int) : Option α :=
  if 0 ≤ i then b[i.toNat]? else none

/-- The write `p[i] = v` into a flat buffer; `none` when `i` lies outside the buffer. -/
def wr {α : Type} (b : List α) (i : Int) (v : α) : Option (List α) :=
  if 0 ≤ i ∧ i.toNat < b.length then some (b.set i.toNat v) else none

/-- The call `std::fill(p, p + n, v)`; `none` when the buffer has fewer than `n` cells. -/
def fill {α : Type} (b : List α) (n : Nat) (v : α) : Option (List α) :=
  if n ≤ b.length then some (List.replicate n v ++ b.drop n) else none

/-- The loop `for (x = 0; x < n; x++) body(x)` over a state, stopping at the first failure. -/
def forLoop {σ : Type} : Nat → (Nat → σ → Option σ) → σ → Option σ
  | 0, _, s => some s
  | n + 1, body, s => (forLoop n body s).bind (body n)

/-- The loop `for (j = 0; j != Nf; ++j) *p++ op= rhs` with `p` starting at `b + base`:
cell `base + j` is read, combined by `op j`, and written back. -/
def rowLoop (Nf : Nat) (base : Int) (op : Nat → ℚ → Option ℚ) (b : List ℚ) :
    Option (List ℚ) :=
  forLoop Nf (fun j b => do
    let y ← rd b (base + j)
    let v ← op j y
    wr b (base + j) v) b

/-- Exact division; there is no quotient by zero. -/
def divq (x c : ℚ) : Option ℚ :=
  if c = 0 then none else some (x / c)

/-! ## `assignclass_euclidian` (lines 22-47) -/

/-- Lines 32-36: the squared Euclidean distance from point `i` to centroid `c`. -/
def cur_distance (f centroids : List ℚ) (Nf i c : Nat) : Option ℚ :=
  forLoop Nf (fun j cur => do
    let x ← rd f ((i : Int) * Nf + j)
    let y ← rd centroids ((c : Int) * Nf + j)
    let term := x - y
    some (cur + term * term)) 0

/-- Lines 29-41: the scan over the clusters for point `i`; the state is
`(best_cluster, min_distance)`. -/
def scanClusters (f centroids : List ℚ) (Nf k i : Nat) : Option (Int × ℚ) :=
  forLoop k (fun c s => do
    let cur ← cur_distance f centroids Nf i c
    if s.1 = -1 ∨ cur < s.2 then some ((c : Int), cur) else some s) (-1, 0)

/-- Lines 28-45: for every point run the scan, then store the label (line 42 stores
the constant `1`); the function returns `true`. -/
def assignclass_euclidian (f centroids : List ℚ) (assignments : List Int)
    (N Nf k : Nat) : Option (List Int × Bool) := do
  let a ← forLoop N (fun i a => do
    let _ ← scanClusters f centroids Nf k i
    wr a (i : Int) 1) assignments
  some (a, true)

/-! ## `computecentroids` (lines 94-152) -/

/-- Lines 113-119: one iteration of the accumulation loop of a worker, on its private
`(local_counts, local_ck)`. -/
def accumPoint (f : List ℚ) (assignments : List Int) (Nf k : Nat) (i : Nat)
    (s : List Int × List ℚ) : Option (List Int × List ℚ) := do
  let c ← rd assignments (i : Int)
  if c ≥ (k : Int) then some s else do
    let lck ← rowLoop Nf ((Nf : Int) * c) (fun j y => do
      let x ← rd f ((i : Int) * Nf + j)
      some (y + x)) s.2
    let n ← rd s.1 c
    let lc ← wr s.1 c (n + 1)
    some (lc, lck)

/-- Lines 106-120: a worker zero-fills its private buffers and runs the iterations
`chunk` it was handed. -/
def accumulate (f : List ℚ) (assignments : List Int) (Nf k : Nat) (chunk : List Nat) :
    Option (List Int × List ℚ) :=
  chunk.foldlM (fun s i => accumPoint f assignments Nf k i s)
    (List.replicate k (0 : Int), List.replicate (k * Nf) (0 : ℚ))

/-- Lines 122-132: a worker adds its private buffers `loc` into the shared
`(counts, centroids)`. -/
def merge (Nf k : Nat) (loc : List Int × List ℚ) (sh : List Int × List ℚ) :
    Option (List Int × List ℚ) :=
  forLoop k (fun c sh => do
    let ck ← rowLoop Nf ((c : Int) * Nf) (fun j y => do
      let x ← rd loc.2 ((c : Int) * Nf + j)
      some (y + x)) sh.2
    let lc ← rd loc.1 (c : Int)
    let n ← rd sh.1 (c : Int)
    let cnt ← wr sh.1 (c : Int) (n + lc)
    some (cnt, ck)) sh

/-- Lines 139-149: the normalisation loop; the state is `(centroids, zero_counts)`. -/
def normalize (Nf k : Nat) (counts : List Int) (centroids : List ℚ) :
    Option (List ℚ × Int) :=
  forLoop k (fun i s => do
    let n ← rd counts (i : Int)
    let c : ℚ := (n : ℚ)
    if c = 0 then some (s.1, s.2 + 1) else do
      let ck ← rowLoop Nf ((Nf : Int) * i) (fun _ y => divq y c) s.1
      some (ck, s.2)) (centroids, 0)

/-- The whole of `computecentroids`: zero-fill, the parallel region run by `workers`
(each worker: accumulate privately, then merge), normalisation.  The result is the
final `centroids`, the final `counts` and the returned `zero_counts`. -/
def computecentroids (workers : List (List Nat)) (f centroids : List ℚ)
    (assignments counts : List Int) (Nf k : Nat) :
    Option (List ℚ × List Int × Int) := do
  let counts0 ← fill counts k (0 : Int)
  let centroids0 ← fill centroids (k * Nf) (0 : ℚ)
  let sh ← workers.foldlM (fun sh chunk => do
    let loc ← accumulate f assignments Nf k chunk
    merge Nf k loc sh) (counts0, centroids0)
  let r ← normalize Nf k sh.1 sh.2
  some (r.1, sh.1, r.2)

/-- A schedule of the loop `for (i = 0; i < N; i++)`: every iteration is handed to
exactly one worker. -/
def IsSchedule (workers : List (List Nat)) (N : Nat) : Prop :=
  workers.flatten.Perm (List.range N)

/-! ## Reference quantities -/

/-- The points among `is` whose label is `c`. -/
def members (assignments : List Int) (is : List Nat) (c : Nat) : List Nat :=
  is.filter (fun i => decide (rd assignments (i : Int) = some (c : Int)))

/-- The sum of feature `j` over the points among `is` whose label is `c`. -/
def clusterSum (f : List ℚ) (assignments : List Int) (Nf : Nat) (is : List Nat)
    (c j : Nat) : ℚ :=
  ((members assignments is c).map (fun i => f.getD (i * Nf + j) 0)).sum

/-- The number of points among `is` whose label is `c`. -/
def clusterSize (assignments : List Int) (is : List Nat) (c : Nat) : Int :=
  ((members assignments is c).length : Int)

/-! ## Specification vocabulary -/

/-- The buffer `b` is a `k × Nf` row-major matrix with entries `g`. -/
def IsMat (b : List ℚ) (k Nf : Nat) (g : Nat → Nat → ℚ) : Prop :=
  b.length = k * Nf ∧ ∀ c j, c < k → j < Nf → b[c * Nf + j]? = some (g c j)

/-- The buffer `b` is a vector of length `k` with entries `g`. -/
def IsVec (b : List Int) (k : Nat) (g : Nat → Int) : Prop :=
  b.length = k ∧ ∀ c, c < k → b[c]? = some (g c)

/-- The number of clusters below `k` whose count, read from `counts`, is zero. -/
def zeroClusters (counts : List Int) (k : Nat) : Nat :=
  ((List.range k).filter (fun c => decide (counts[c]? = some 0))).length

/-- A valid call of `update`: `workers` is a schedule of the `N` points, the four buffers
have the shapes `N × Nf`, `k × Nf`, `N` and `k`, and no label is negative. -/
structure ValidUpdate (workers : List (List Nat)) (f centroids : List ℚ)
    (assignments counts : List Int) (N Nf k : Nat) : Prop where
  sched : IsSchedule workers N
  shapeF : f.length = N * Nf
  shapeC : centroids.length = k * Nf
  shapeA : assignments.length = N
  shapeCounts : counts.length = k
  labels : ∀ a ∈ assignments, (0 : Int) ≤ a

/-- The mean that `update` is to write for cluster `c`, feature `j`: zero for an empty
cluster, the sum of the members divided by their number otherwise. -/
def clusterMean (f : List ℚ) (assignments : List Int) (N Nf c j : Nat) : ℚ :=
  if clusterSize assignments (List.range N) c = 0 then 0
  else clusterSum f assignments Nf (List.range N) c j /
    (clusterSize assignments (List.range N) c : ℚ)

/-! ## Running the loops of the two kernels in another order -/

/-- Lines 29-42: the body of the loop of `assignclass_euclidian` for point `i`. -/
def assignPoint (f centroids : List ℚ) (Nf k i : Nat) (a : List Int) : Option (List Int) := do
  let _ ← scanClusters f centroids Nf k i
  wr a (i : Int) 1

/-- The loop of lines 28-43 with its iterations run in the order `order`, as a run of the
loop shared among workers may do; the function returns `true`. -/
def assignclass_order (order : List Nat) (f centroids : List ℚ) (assignments : List Int)
    (Nf k : Nat) : Option (List Int × Bool) := do
  let a ← order.foldlM (fun a i => assignPoint f centroids Nf k i a) assignments
  some (a, true)

/-- Lines 104-136: the parallel region of `computecentroids` on the shared
`(counts, centroids)`: every worker accumulates its iterations privately, then merges. -/
def parallelRegion (workers : List (List Nat)) (f : List ℚ) (assignments : List Int)
    (Nf k : Nat) (sh : List Int × List ℚ) : Option (List Int × List ℚ) :=
  workers.foldlM (fun sh chunk => do
    let loc ← accumulate f assignments Nf k chunk
    merge Nf k loc sh) sh

/-- In the words of the specification: a single sequential pass over the points
`0, …, N-1`, adding every point into zero-initialised counts and sums. -/
def sequentialPass (f : List ℚ) (assignments : List Int) (N Nf k : Nat) :
    Option (List Int × List ℚ) :=
  forLoop N (fun i s => accumPoint f assignments Nf k i s)
    (List.replicate k (0 : Int), List.replicate (k * Nf) (0 : ℚ))

/-! ## Squared distances -/

/-- The squared Euclidean distance `Σ_j (F[i,j] - v j)²` from point `i` to the vector `v`. -/
def sqDist (f : List ℚ) (Nf i : Nat) (v : Nat → ℚ) : ℚ :=
  ((List.range Nf).map (fun j => (f.getD (i * Nf + j) 0 - v j) ^ 2)).sum

/-- Row `c` of a row-major matrix with `Nf` columns, as a vector. -/
def row (centroids : List ℚ) (Nf c : Nat) : Nat → ℚ :=
  fun j => centroids.getD (c * Nf + j) 0

/-- The sum over the points `i < N` labelled `c` of their squared distance to `v`. -/
def clusterCost (f : List ℚ) (assignments : List Int) (N Nf c : Nat) (v : Nat → ℚ) : ℚ :=
  ((members assignments (List.range N) c).map (fun i => sqDist f Nf i v)).sum

/-! ## `py_computecentroids` (lines 155-203) -/

/-- The NumPy element type numbers that the code distinguishes. -/
inductive NpyType where
  | NPY_FLOAT
  | NPY_DOUBLE
  | NPY_INT32
  | NPY_OTHER
  deriving DecidableEq

/-- What the code reads of a `PyArrayObject`: its element type, whether it is contiguous,
its dimensions, and its data, seen through `static_cast<ftype*>` (`floats`) and through
`static_cast<npy_int32*>` (`ints`).  A dimension is an `npy_intp`, not negative. -/
structure NdArray where
  dtype : NpyType
  contiguous : Bool
  dims : List Nat
  floats : List ℚ
  ints : List Int
  deriving DecidableEq

/-- A Python object passed as an argument: an array (`PyArray_Check` holds) or not. -/
inductive PyObject where
  | ndarray (a : NdArray)
  | notArray
  deriving DecidableEq

/-- What a call hands back to Python: `raised msg` when the function returns `0` with a
`RuntimeError` carrying `msg` set, `returned b` when it returns the Python boolean `b`. -/
inductive PyValue where
  | raised (msg : String)
  | returned (b : Bool)
  deriving DecidableEq

/-- The outcome of a call from Python: the value handed back, the argument objects after
the call, and the number of invocations of the kernel `computecentroids`. -/
structure PyReturn where
  value : PyValue
  args : List PyObject
  kernelRuns : Nat
  deriving DecidableEq

/-- The conversion `const int N = PyArray_DIM(a, i)` of lines 173-175 from `npy_intp` to
`int`: the low 32 bits of the dimension, read as a signed integer, that is the
representative of `d` modulo `2^32` between `-2^31` and `2^31 - 1`. -/
def narrow (d : Nat) : Int :=
  ((d : Int) + 2147483648) % 4294967296 - 2147483648

/-- The arguments handed to the kernel once every check has passed.  The checks of lines
176-178 have then found each of `N`, `Nf` and `k` equal to a dimension of another array,
so none of them is negative. -/
structure KernelArgs where
  fmatrix : NdArray
  centroids : NdArray
  assignments : NdArray
  counts : NdArray
  N : Nat
  Nf : Nat
  k : Nat
  deriving DecidableEq

/-- The outcome of the checks: a thrown `Kmeans_Exception` or the kernel arguments. -/
inductive Checked where
  | thrown (msg : String)
  | passed (a : KernelArgs)
  deriving DecidableEq

/-- The test `!PyArray_Check(o) || !PyArray_ISCONTIGUOUS(o)` of lines 162-165, returning
the array when the test is false. -/
def contiguousArray (o : PyObject) : Option NdArray :=
  match o with
  | PyObject.ndarray a => if a.contiguous then some a else none
  | PyObject.notArray => none

/-- Lines 161-178: the checks, in the order of the code.  The dimensions of `fmatrix`
and the first dimension of `centroids` are narrowed to `int` (lines 173-175) and the
tests of lines 176-178 compare the `npy_intp` dimensions of the other arrays with these
`int` values.  The result is `none` when the code reads `PyArray_DIM(counts, 0)` of an
array without dimensions. -/
def checkArgs (args : List PyObject) : Option Checked :=
  match args with
  | [o₁, o₂, o₃, o₄] =>
    match contiguousArray o₁ with
    | none => some (Checked.thrown "fmatrix not what was expected.")
    | some fmatrix =>
    match contiguousArray o₂ with
    | none => some (Checked.thrown "centroids not what was expected.")
    | some centroids =>
    match contiguousArray o₄ with
    | none => some (Checked.thrown "counts not what was expected.")
    | some counts =>
    match contiguousArray o₃ with
    | none => some (Checked.thrown "assignments not what was expected.")
    | some assignments =>
    if counts.dtype ≠ NpyType.NPY_INT32 then
      some (Checked.thrown "counts should be int32.")
    else if fmatrix.dtype ≠ centroids.dtype then
      some (Checked.thrown "centroids and fmatrix should have same type.")
    else
    match fmatrix.dims, centroids.dims, assignments.dims with
    | [d₀, d₁], [e₀, e₁], [n] =>
      if (e₁ : Int) ≠ narrow d₁ then
        some (Checked.thrown "centroids has wrong number of features.")
      else if (n : Int) ≠ narrow d₀ then some (Checked.thrown "assignments has wrong size.")
      else
        match counts.dims[0]? with
        | none => none
        | some m =>
          if ((m : Nat) : Int) ≠ narrow e₀ then some (Checked.thrown "counts has wrong size.")
          else some (Checked.passed ⟨fmatrix, centroids, assignments, counts,
            (narrow d₀).toNat, (narrow d₁).toNat, (narrow e₀).toNat⟩)
    | [_, _], [_, _], _ => some (Checked.thrown "assignments should be two dimensional")
    | [_, _], _, _ => some (Checked.thrown "centroids should be two dimensional")
    | _, _, _ => some (Checked.thrown "fmatrix should be two dimensional")
  | _ => some (Checked.thrown "Wrong number of arguments for computecentroids.")

/-- Lines 155-203: `py_computecentroids`.  After the checks the kernel runs for the
element types `NPY_FLOAT` and `NPY_DOUBLE` and the function returns `True` when the
kernel returns a non-zero integer and `False` otherwise; a thrown `Kmeans_Exception` is
turned into a `RuntimeError`.  The result is `none` when the behaviour is undefined. -/
def py_computecentroids (workers : List (List Nat)) (args : List PyObject) :
    Option PyReturn :=
  match checkArgs args with
  | none => none
  | some (Checked.thrown msg) => some ⟨PyValue.raised msg, args, 0⟩
  | some (Checked.passed a) =>
    if a.fmatrix.dtype = NpyType.NPY_FLOAT ∨ a.fmatrix.dtype = NpyType.NPY_DOUBLE then
      match computecentroids workers a.fmatrix.floats a.centroids.floats a.assignments.ints
          a.counts.ints a.Nf a.k with
      | none => none
      | some (C, Counts, z) =>
        some ⟨PyValue.returned (decide (z ≠ 0)),
          [PyObject.ndarray a.fmatrix, PyObject.ndarray { a.centroids with floats := C },
            PyObject.ndarray a.assignments, PyObject.ndarray { a.counts with ints := Counts }],
          1⟩
    else some ⟨PyValue.raised "Cannot handle this type.", args, 0⟩

/-! ## Loops and buffers -/

theorem rd_nat {α : Type} (b : List α) (n : Nat) : rd b (n : Int) = b[n]? := by
  simp [rd]

theorem wr_nat {α : Type} (b : List α) (n : Nat) (v : α) (h : n < b.length) :
    wr b (n : Int) v = some (b.set n v) := by
  simp [wr, h]

theorem forLoop_inv {σ : Type} (body : Nat → σ → Option σ) (P : Nat → σ → Prop) (n : Nat)
    (s : σ) (h0 : P 0 s)
    (hstep : ∀ i t, i < n → P i t → ∃ t', body i t = some t' ∧ P (i + 1) t') :
    ∃ s', forLoop n body s = some s' ∧ P n s' := by
  induction n with
  | zero => exact ⟨s, rfl, h0⟩
  | succ m ih =>
    obtain ⟨t, ht, hP⟩ := ih (fun i t hi hp => hstep i t (Nat.lt_succ_of_lt hi) hp)
    obtain ⟨t', ht', hP'⟩ := hstep m t (Nat.lt_succ_self m) hP
    exact ⟨t', by simp [forLoop, ht, ht'], hP'⟩

theorem foldlM_inv {σ β : Type} (step : σ → β → Option σ) (P : List β → σ → Prop)
    (l : List β) (s : σ) (h0 : P [] s)
    (hstep : ∀ pre x t, x ∈ l → P pre t → ∃ t', step t x = some t' ∧ P (pre ++ [x]) t') :
    ∃ s', l.foldlM step s = some s' ∧ P l s' := by
  suffices H : ∀ (l' pre : List β) (t : σ), (∀ x ∈ l', x ∈ l) → P pre t →
      ∃ s', l'.foldlM step t = some s' ∧ P (pre ++ l') s' by
    simpa using H l [] s (fun _ h => h) h0
  intro l'
  induction l' with
  | nil => intro pre t _ hP; exact ⟨t, rfl, by simpa using hP⟩
  | cons x xs ih =>
    intro pre t hmem hP
    obtain ⟨t', ht', hP'⟩ := hstep pre x t (hmem x (List.mem_cons_self _ _)) hP
    obtain ⟨s', hs', hQ⟩ := ih (pre ++ [x]) t' (fun y hy => hmem y (List.mem_cons_of_mem _ hy)) hP'
    exact ⟨s', by simp [List.foldlM_cons, ht', hs'], by simpa using hQ⟩

theorem idx_lt {k Nf c j : Nat} (hc : c < k) (hj : j < Nf) : c * Nf + j < k * Nf := by
  calc c * Nf + j < c * Nf + Nf := by omega
    _ = (c + 1) * Nf := by ring
    _ ≤ k * Nf := Nat.mul_le_mul_right _ hc

theorem idx_inj {Nf c j c' j' : Nat} (hj : j < Nf) (hj' : j' < Nf)
    (h : c * Nf + j = c' * Nf + j') : c = c' ∧ j = j' := by
  have hNf : 0 < Nf := by omega
  have h1 : (c * Nf + j) / Nf = c := by
    rw [Nat.mul_comm, Nat.mul_add_div hNf, Nat.div_eq_of_lt hj]; rfl
  have h2 : (c' * Nf + j') / Nf = c' := by
    rw [Nat.mul_comm, Nat.mul_add_div hNf, Nat.div_eq_of_lt hj']; rfl
  have hc : c = c' := by rw [← h1, ← h2, h]
  subst hc
  exact ⟨rfl, by omega⟩

theorem rowLoop_mat {b : List ℚ} {k Nf : Nat} {g : Nat → Nat → ℚ} (hb : IsMat b k Nf g)
    (c : Nat) (hc : c < k) (op : Nat → ℚ → Option ℚ) (h : Nat → ℚ)
    (hop : ∀ j, j < Nf → op j (g c j) = some (h j)) :
    ∃ b', rowLoop Nf ((c : Int) * Nf) op b = some b' ∧
      IsMat b' k Nf (fun c' j => if c' = c then h j else g c' j) := by
  have := forLoop_inv (fun j b => do
      let y ← rd b ((c : Int) * Nf + j)
      let v ← op j y
      wr b ((c : Int) * Nf + j) v)
    (fun n b => IsMat b k Nf (fun c' j => if c' = c ∧ j < n then h j else g c' j)) Nf b
    (by simpa using hb)
    (by
      intro j t hj ht
      have hidx : ((c : Int) * Nf + j) = ((c * Nf + j : Nat) : Int) := by push_cast; ring
      have hlt : c * Nf + j < t.length := by rw [ht.1]; exact idx_lt hc hj
      have hrd : t[c * Nf + j]? = some (g c j) := by
        have := ht.2 c j hc hj
        simpa using this
      refine ⟨t.set (c * Nf + j) (h j), ?_, ?_⟩
      · show (do
            let y ← rd t ((c : Int) * Nf + j)
            let v ← op j y
            wr t ((c : Int) * Nf + j) v) = _
        rw [hidx, rd_nat, hrd]
        simp only [Option.bind_eq_bind, Option.some_bind, hop j hj]
        exact wr_nat _ _ _ hlt
      · refine ⟨by simpa using ht.1, ?_⟩
        intro c' j' hc' hj'
        rw [List.getElem?_set]
        by_cases hEq : c * Nf + j = c' * Nf + j'
        · obtain ⟨h1, h2⟩ := idx_inj hj hj' hEq
          subst h1; subst h2
          simp [hlt]
        · have hne : ¬ (c' = c ∧ j' = j) := by
            rintro ⟨h1, h2⟩; exact hEq (by rw [h1, h2])
          rw [if_neg hEq, ht.2 c' j' hc' hj']
          by_cases h1 : c' = c
          · have h2 : j' ≠ j := fun h2 => hne ⟨h1, h2⟩
            have : (j' < j + 1) ↔ (j' < j) := by omega
            simp [h1, this]
          · simp [h1])
  obtain ⟨b', hb', hP⟩ := this
  refine ⟨b', hb', hP.1, ?_⟩
  intro c' j' hc' hj'
  rw [hP.2 c' j' hc' hj']
  simp [hj']


theorem IsMat.congrMat {b : List ℚ} {k Nf : Nat} {g g' : Nat → Nat → ℚ} (hb : IsMat b k Nf g)
    (h : ∀ c j, c < k → j < Nf → g c j = g' c j) : IsMat b k Nf g' :=
  ⟨hb.1, fun c j hc hj => by rw [hb.2 c j hc hj, h c j hc hj]⟩

theorem IsVec.congrVec {b : List Int} {k : Nat} {g g' : Nat → Int} (hb : IsVec b k g)
    (h : ∀ c, c < k → g c = g' c) : IsVec b k g' :=
  ⟨hb.1, fun c hc => by rw [hb.2 c hc, h c hc]⟩

theorem IsVec.setVec {b : List Int} {k : Nat} {g : Nat → Int} (hb : IsVec b k g) (c : Nat)
    (v : Int) : IsVec (b.set c v) k (fun c' => if c' = c then v else g c') := by
  refine ⟨by simpa using hb.1, fun c' hc' => ?_⟩
  rw [List.getElem?_set]
  by_cases h : c = c'
  · subst h; simp [hb.1, hc']
  · have h' : ¬ c' = c := fun e => h e.symm
    simp [h, h', hb.2 c' hc']

theorem isVec_replicate (k : Nat) : IsVec (List.replicate k (0 : Int)) k (fun _ => 0) :=
  ⟨by simp, fun c hc => by simp [List.getElem?_replicate, hc]⟩

theorem isMat_replicate (k Nf : Nat) :
    IsMat (List.replicate (k * Nf) (0 : ℚ)) k Nf (fun _ _ => 0) :=
  ⟨by simp, fun c j hc hj => by simp [List.getElem?_replicate, idx_lt hc hj]⟩

theorem accumPoint_spec {f : List ℚ} {A : List Int} {N Nf k i : Nat}
    (hf : f.length = N * Nf) (hi : i < N) (a : Int) (ha : A[i]? = some a) (ha0 : 0 ≤ a)
    {lc : List Int} {lck : List ℚ} {n : Nat → Int} {g : Nat → Nat → ℚ}
    (hv : IsVec lc k n) (hm : IsMat lck k Nf g) :
    ∃ lc' lck', accumPoint f A Nf k i (lc, lck) = some (lc', lck') ∧
      IsVec lc' k (fun c => n c + if a = (c : Int) then 1 else 0) ∧
      IsMat lck' k Nf (fun c j => g c j + if a = (c : Int) then f.getD (i * Nf + j) 0 else 0) := by
  unfold accumPoint
  rw [rd_nat, ha]
  by_cases hk : a ≥ (k : Int)
  · refine ⟨lc, lck, by simp [hk], hv.congrVec ?_, hm.congrMat ?_⟩
    · intro c hc
      have : a ≠ (c : Int) := by omega
      simp [this]
    · intro c j hc _
      have : a ≠ (c : Int) := by omega
      simp [this]
  · obtain ⟨c, rfl⟩ := Int.eq_ofNat_of_zero_le ha0
    have hc : c < k := by omega
    have hbase : ((Nf : Int) * (c : Int)) = (c : Int) * Nf := by ring
    obtain ⟨lck', hlck', hM⟩ := rowLoop_mat hm c hc
      (fun j y => do
        let x ← rd f ((i : Int) * Nf + j)
        some (y + x))
      (fun j => g c j + f.getD (i * Nf + j) 0)
      (by
        intro j hj
        have hidx : ((i : Int) * Nf + j) = ((i * Nf + j : Nat) : Int) := by push_cast; ring
        have hlt : i * Nf + j < f.length := by rw [hf]; exact idx_lt hi hj
        beta_reduce
        rw [hidx, rd_nat, List.getElem?_eq_getElem hlt]
        simp [List.getD_eq_getElem?_getD, List.getElem?_eq_getElem hlt])
    have hlen : c < lc.length := by rw [hv.1]; exact hc
    refine ⟨lc.set c (n c + 1), lck', ?_, ?_, ?_⟩
    · simp only [Option.bind_eq_bind, Option.some_bind, if_neg hk, hbase] at hlck' ⊢
      rw [hlck']
      simp only [Option.some_bind, rd_nat, hv.2 c hc, wr_nat _ _ _ hlen]
    · refine (hv.setVec c (n c + 1)).congrVec ?_
      intro c' _
      by_cases h : c' = c
      · subst h; simp
      · have : (c : Int) ≠ (c' : Int) := by omega
        simp [h, this]
    · refine hM.congrMat ?_
      intro c' j _ _
      by_cases h : c' = c
      · subst h; simp
      · have : (c : Int) ≠ (c' : Int) := by omega
        simp [h, this]

/-! ## Cluster sizes and sums; accumulation and merge of one worker -/

theorem members_nil (A : List Int) (c : Nat) : members A [] c = [] := rfl

theorem members_append (A : List Int) (l₁ l₂ : List Nat) (c : Nat) :
    members A (l₁ ++ l₂) c = members A l₁ c ++ members A l₂ c := by
  simp [members, List.filter_append]

theorem members_single (A : List Int) (i c : Nat) (a : Int) (ha : A[i]? = some a) :
    members A [i] c = if a = (c : Int) then [i] else [] := by
  simp only [members, rd_nat, ha, List.filter_cons, List.filter_nil, Option.some.injEq]
  by_cases h : a = (c : Int) <;> simp [h]

theorem clusterSize_append (A : List Int) (l₁ l₂ : List Nat) (c : Nat) :
    clusterSize A (l₁ ++ l₂) c = clusterSize A l₁ c + clusterSize A l₂ c := by
  simp [clusterSize, members_append]

theorem clusterSum_append (f : List ℚ) (A : List Int) (Nf : Nat) (l₁ l₂ : List Nat)
    (c j : Nat) :
    clusterSum f A Nf (l₁ ++ l₂) c j = clusterSum f A Nf l₁ c j + clusterSum f A Nf l₂ c j := by
  simp [clusterSum, members_append]

theorem clusterSize_single (A : List Int) (i c : Nat) (a : Int) (ha : A[i]? = some a) :
    clusterSize A [i] c = if a = (c : Int) then 1 else 0 := by
  rw [clusterSize, members_single A i c a ha]
  by_cases h : a = (c : Int) <;> simp [h]

theorem clusterSum_single (f : List ℚ) (A : List Int) (Nf i c j : Nat) (a : Int)
    (ha : A[i]? = some a) :
    clusterSum f A Nf [i] c j = if a = (c : Int) then f.getD (i * Nf + j) 0 else 0 := by
  rw [clusterSum, members_single A i c a ha]
  by_cases h : a = (c : Int) <;> simp [h]

theorem members_perm {A : List Int} {l₁ l₂ : List Nat} (h : l₁.Perm l₂) (c : Nat) :
    (members A l₁ c).Perm (members A l₂ c) :=
  h.filter _

theorem clusterSize_perm {A : List Int} {l₁ l₂ : List Nat} (h : l₁.Perm l₂) (c : Nat) :
    clusterSize A l₁ c = clusterSize A l₂ c := by
  simp [clusterSize, (members_perm h c).length_eq]

theorem clusterSum_perm {f : List ℚ} {A : List Int} {Nf : Nat} {l₁ l₂ : List Nat}
    (h : l₁.Perm l₂) (c j : Nat) :
    clusterSum f A Nf l₁ c j = clusterSum f A Nf l₂ c j :=
  ((members_perm h c).map _).sum_eq

theorem clusterSum_eq_zero {f : List ℚ} {A : List Int} {Nf : Nat} {l : List Nat} {c : Nat}
    (h : clusterSize A l c = 0) (j : Nat) : clusterSum f A Nf l c j = 0 := by
  have : members A l c = [] := by
    simpa [clusterSize] using h
  simp [clusterSum, this]

theorem accumulate_spec {f : List ℚ} {A : List Int} {N Nf k : Nat}
    (hf : f.length = N * Nf) (hA : A.length = N) (hpos : ∀ a ∈ A, (0 : Int) ≤ a)
    (chunk : List Nat) (hchunk : ∀ i ∈ chunk, i < N) :
    ∃ lc lck, accumulate f A Nf k chunk = some (lc, lck) ∧
      IsVec lc k (clusterSize A chunk) ∧ IsMat lck k Nf (clusterSum f A Nf chunk) := by
  obtain ⟨s, hs, hP⟩ := foldlM_inv (fun s i => accumPoint f A Nf k i s)
    (fun pre s => IsVec s.1 k (clusterSize A pre) ∧ IsMat s.2 k Nf (clusterSum f A Nf pre))
    chunk (List.replicate k (0 : Int), List.replicate (k * Nf) (0 : ℚ))
    ⟨(isVec_replicate k).congrVec (fun c _ => by simp [clusterSize, members_nil]),
     (isMat_replicate k Nf).congrMat (fun c j _ _ => by simp [clusterSum, members_nil])⟩
    (by
      rintro pre i ⟨lc, lck⟩ hi ⟨hv, hm⟩
      have hiN : i < N := hchunk i hi
      have hiA : i < A.length := by rw [hA]; exact hiN
      have ha : A[i]? = some A[i] := List.getElem?_eq_getElem hiA
      obtain ⟨lc', lck', h1, h2, h3⟩ :=
        accumPoint_spec (k := k) hf hiN A[i] ha (hpos _ (List.getElem_mem hiA)) hv hm
      refine ⟨(lc', lck'), h1, h2.congrVec ?_, h3.congrMat ?_⟩
      · intro c _
        rw [clusterSize_append, clusterSize_single A i c _ ha]
      · intro c j _ _
        rw [clusterSum_append, clusterSum_single f A Nf i c j _ ha])
  exact ⟨s.1, s.2, hs, hP.1, hP.2⟩

theorem merge_spec {Nf k : Nat} {lc cnt : List Int} {lck ck : List ℚ} {nl ns : Nat → Int}
    {gl gs : Nat → Nat → ℚ} (hlv : IsVec lc k nl) (hlm : IsMat lck k Nf gl)
    (hsv : IsVec cnt k ns) (hsm : IsMat ck k Nf gs) :
    ∃ cnt' ck', merge Nf k (lc, lck) (cnt, ck) = some (cnt', ck') ∧
      IsVec cnt' k (fun c => ns c + nl c) ∧ IsMat ck' k Nf (fun c j => gs c j + gl c j) := by
  obtain ⟨s, hs, hP⟩ := forLoop_inv (fun c sh => do
      let ck ← rowLoop Nf ((c : Int) * Nf) (fun j y => do
        let x ← rd (lc, lck).2 ((c : Int) * Nf + j)
        some (y + x)) sh.2
      let l ← rd (lc, lck).1 (c : Int)
      let n ← rd sh.1 (c : Int)
      let cnt ← wr sh.1 (c : Int) (n + l)
      some (cnt, ck))
    (fun m s => IsVec s.1 k (fun c => ns c + if c < m then nl c else 0) ∧
      IsMat s.2 k Nf (fun c j => gs c j + if c < m then gl c j else 0))
    k (cnt, ck)
    ⟨hsv.congrVec (fun c _ => by simp), hsm.congrMat (fun c j _ _ => by simp)⟩
    (by
      rintro c ⟨cnt₁, ck₁⟩ hc ⟨hv, hm⟩
      obtain ⟨ck₂, hck₂, hM⟩ := rowLoop_mat hm c hc
        (fun j y => do
          let x ← rd lck ((c : Int) * Nf + j)
          some (y + x))
        (fun j => gs c j + gl c j)
        (by
          intro j hj
          have hidx : ((c : Int) * Nf + j) = ((c * Nf + j : Nat) : Int) := by push_cast; ring
          beta_reduce
          rw [hidx, rd_nat, hlm.2 c j hc hj]
          simp)
      have hlen : c < cnt₁.length := by rw [hv.1]; exact hc
      refine ⟨(cnt₁.set c (ns c + nl c), ck₂), ?_, ?_, ?_⟩
      · simp only [Option.bind_eq_bind, Option.some_bind] at hck₂ ⊢
        rw [hck₂]
        simp only [Option.some_bind, rd_nat, hlv.2 c hc, hv.2 c hc]
        have : ¬ c < c := Nat.lt_irrefl c
        simp only [this, if_false, add_zero]
        rw [wr_nat _ _ _ hlen]
        rfl
      · refine (hv.setVec c (ns c + nl c)).congrVec ?_
        intro c' _
        by_cases h : c' = c
        · subst h; simp
        · have : (c' < c + 1) ↔ (c' < c) := by omega
          simp [h, this]
      · refine hM.congrMat ?_
        intro c' j _ _
        by_cases h : c' = c
        · subst h; simp
        · have : (c' < c + 1) ↔ (c' < c) := by omega
          simp [h, this])
  refine ⟨s.1, s.2, hs, hP.1.congrVec ?_, hP.2.congrMat ?_⟩
  · intro c hc; simp [hc]
  · intro c j hc _; simp [hc]

/-! ## The parallel region -/

theorem fill_exact {α : Type} (b : List α) (n : Nat) (v : α) (h : b.length = n) :
    fill b n v = some (List.replicate n v) := by
  simp [fill, h, List.drop_eq_nil_of_le (Nat.le_of_eq h)]

theorem region_spec {f : List ℚ} {A : List Int} {N Nf k : Nat}
    (hf : f.length = N * Nf) (hA : A.length = N) (hpos : ∀ a ∈ A, (0 : Int) ≤ a)
    (workers : List (List Nat)) (hw : ∀ chunk ∈ workers, ∀ i ∈ chunk, i < N) :
    ∃ cnt ck, workers.foldlM (fun sh chunk => do
        let loc ← accumulate f A Nf k chunk
        merge Nf k loc sh) (List.replicate k (0 : Int), List.replicate (k * Nf) (0 : ℚ))
          = some (cnt, ck) ∧
      IsVec cnt k (clusterSize A workers.flatten) ∧
      IsMat ck k Nf (clusterSum f A Nf workers.flatten) := by
  obtain ⟨s, hs, hP⟩ := foldlM_inv (fun sh chunk => do
      let loc ← accumulate f A Nf k chunk
      merge Nf k loc sh)
    (fun pre s => IsVec s.1 k (clusterSize A pre.flatten) ∧
      IsMat s.2 k Nf (clusterSum f A Nf pre.flatten))
    workers (List.replicate k (0 : Int), List.replicate (k * Nf) (0 : ℚ))
    ⟨(isVec_replicate k).congrVec (fun c _ => by simp [clusterSize, members_nil]),
     (isMat_replicate k Nf).congrMat (fun c j _ _ => by simp [clusterSum, members_nil])⟩
    (by
      rintro pre chunk ⟨cnt, ck⟩ hmem ⟨hv, hm⟩
      obtain ⟨lc, lck, hl, hlv, hlm⟩ := accumulate_spec (k := k) hf hA hpos chunk (hw chunk hmem)
      obtain ⟨cnt', ck', hm', hv', hM'⟩ := merge_spec hlv hlm hv hm
      refine ⟨(cnt', ck'), ?_, hv'.congrVec ?_, hM'.congrMat ?_⟩
      · simp only [Option.bind_eq_bind, hl, Option.some_bind, hm']
      · intro c _
        simp [List.flatten_append, clusterSize_append]
      · intro c j _ _
        simp [List.flatten_append, clusterSum_append])
  exact ⟨s.1, s.2, hs, hP.1, hP.2⟩

/-! ## Normalisation -/

theorem forLoop_of_some {σ : Type} (body : Nat → σ → Option σ) (P : Nat → σ → Prop)
    (n : Nat) (s s' : σ) (h0 : P 0 s)
    (hstep : ∀ i t t', i < n → P i t → body i t = some t' → P (i + 1) t')
    (h : forLoop n body s = some s') : P n s' := by
  induction n generalizing s' with
  | zero =>
    simp only [forLoop, Option.some.injEq] at h
    exact h ▸ h0
  | succ m ih =>
    simp only [forLoop, Option.bind_eq_some] at h
    obtain ⟨t, ht, ht'⟩ := h
    exact hstep m t s' (Nat.lt_succ_self m)
      (ih t (fun i u u' hi => hstep i u u' (Nat.lt_succ_of_lt hi)) ht) ht'

theorem zeroClusters_succ (counts : List Int) (k : Nat) :
    zeroClusters counts (k + 1) =
      zeroClusters counts k + if counts[k]? = some 0 then 1 else 0 := by
  simp only [zeroClusters, List.range_succ, List.filter_append, List.length_append,
    List.filter_cons, List.filter_nil]
  by_cases h : counts[k]? = some 0 <;> simp [h]

theorem zeroClusters_le (counts : List Int) (k : Nat) : zeroClusters counts k ≤ k := by
  have := List.length_filter_le (fun c => decide (counts[c]? = some 0)) (List.range k)
  simpa [zeroClusters] using this

theorem normalize_zero_counts {Nf k : Nat} {counts : List Int} {centroids ck : List ℚ}
    {z : Int} (h : Kmeans.normalize Nf k counts centroids = some (ck, z)) :
    z = (zeroClusters counts k : Int) := by
  have := forLoop_of_some _ (fun i (s : List ℚ × Int) => s.2 = (zeroClusters counts i : Int))
    k (centroids, 0) (ck, z) (by simp [zeroClusters])
    (by
      rintro i ⟨t, w⟩ ⟨t', w'⟩ _ hP hb
      simp only at hP
      subst hP
      simp only [rd_nat, Option.bind_eq_bind, Option.bind_eq_some] at hb
      obtain ⟨n, hn, hb⟩ := hb
      rw [zeroClusters_succ, hn]
      by_cases h0 : (n : ℚ) = 0
      · have hn0 : n = 0 := by exact_mod_cast h0
        simp only [h0, if_true, Option.some.injEq, Prod.mk.injEq] at hb
        simp [hn0, ← hb.2]
      · have hn0 : n ≠ 0 := fun e => h0 (by simp [e])
        simp only [h0, if_false, Option.bind_eq_some, Option.some.injEq, Prod.mk.injEq] at hb
        obtain ⟨_, _, _, hw⟩ := hb
        simp [hn0, ← hw])
    h
  simpa using this

theorem normalize_spec {Nf k : Nat} {counts : List Int} {centroids : List ℚ}
    {n : Nat → Int} {g : Nat → Nat → ℚ} (hv : IsVec counts k n) (hm : IsMat centroids k Nf g) :
    ∃ ck z, Kmeans.normalize Nf k counts centroids = some (ck, z) ∧
      IsMat ck k Nf (fun c j => if n c = 0 then g c j else g c j / (n c : ℚ)) := by
  obtain ⟨s, hs, hP⟩ := forLoop_inv (fun i s => do
      let m ← rd counts (i : Int)
      let c : ℚ := (m : ℚ)
      if c = 0 then some (s.1, s.2 + 1) else do
        let ck ← rowLoop Nf ((Nf : Int) * i) (fun _ y => divq y c) s.1
        some (ck, s.2))
    (fun i (s : List ℚ × Int) =>
      IsMat s.1 k Nf (fun c j => if c < i ∧ n c ≠ 0 then g c j / (n c : ℚ) else g c j))
    k (centroids, 0) (hm.congrMat (fun c j _ _ => by simp))
    (by
      rintro i ⟨t, w⟩ hi hM
      by_cases h0 : n i = 0
      · refine ⟨(t, w + 1), ?_, hM.congrMat ?_⟩
        · simp [rd_nat, hv.2 i hi, h0]
        · intro c j _ _
          by_cases h : c = i
          · subst h; simp [h0]
          · have : (c < i + 1) ↔ (c < i) := by omega
            simp [this]
      · have hq : ((n i : Int) : ℚ) ≠ 0 := by exact_mod_cast h0
        have hbase : ((Nf : Int) * (i : Int)) = (i : Int) * Nf := by ring
        obtain ⟨t', ht', hM'⟩ := rowLoop_mat hM i hi (fun _ y => divq y (n i : ℚ))
          (fun j => g i j / (n i : ℚ))
          (by intro j _; simp [divq, hq])
        refine ⟨(t', w), ?_, hM'.congrMat ?_⟩
        · simp only [rd_nat, hv.2 i hi, Option.bind_eq_bind, Option.some_bind, hq, if_false,
            hbase, ht']
        · intro c j _ _
          by_cases h : c = i
          · subst h; simp [h0]
          · have : (c < i + 1) ↔ (c < i) := by omega
            simp [h, this])
  refine ⟨s.1, s.2, hs, hP.congrMat ?_⟩
  intro c j hc _
  by_cases h0 : n c = 0 <;> simp [hc, h0]

/-! ## The result of `computecentroids` -/

theorem IsVec.uniqueVec {b b' : List Int} {k : Nat} {g : Nat → Int} (hb : IsVec b k g)
    (hb' : IsVec b' k g) : b = b' := by
  apply List.ext_getElem?
  intro c
  by_cases hc : c < k
  · rw [hb.2 c hc, hb'.2 c hc]
  · rw [List.getElem?_eq_none (by rw [hb.1]; omega), List.getElem?_eq_none (by rw [hb'.1]; omega)]

theorem IsMat.uniqueMat {b b' : List ℚ} {k Nf : Nat} {g : Nat → Nat → ℚ} (hb : IsMat b k Nf g)
    (hb' : IsMat b' k Nf g) : b = b' := by
  apply List.ext_getElem?
  intro idx
  by_cases hidx : idx < k * Nf
  · have hNf : 0 < Nf := by
      rcases Nat.eq_zero_or_pos Nf with h | h
      · subst h; simp at hidx
      · exact h
    have hc : idx / Nf < k := by
      rw [Nat.div_lt_iff_lt_mul hNf]; exact hidx
    have hj : idx % Nf < Nf := Nat.mod_lt _ hNf
    have hEq : idx / Nf * Nf + idx % Nf = idx := by
      rw [Nat.mul_comm]; exact Nat.div_add_mod idx Nf
    rw [← hEq, hb.2 _ _ hc hj, hb'.2 _ _ hc hj]
  · rw [List.getElem?_eq_none (by rw [hb.1]; omega), List.getElem?_eq_none (by rw [hb'.1]; omega)]

theorem computecentroids_zero_counts {workers : List (List Nat)} {f centroids C : List ℚ}
    {A counts Counts : List Int} {Nf k : Nat} {z : Int}
    (h : computecentroids workers f centroids A counts Nf k = some (C, Counts, z)) :
    z = (zeroClusters Counts k : Int) := by
  simp only [computecentroids, Option.bind_eq_bind, Option.bind_eq_some, Option.some.injEq,
    Prod.mk.injEq] at h
  obtain ⟨_, _, _, _, sh, _, ⟨ck, w⟩, hn, _, h1, h2⟩ := h
  subst h1; subst h2
  exact normalize_zero_counts hn

theorem computecentroids_spec {workers : List (List Nat)} {f centroids : List ℚ}
    {A counts : List Int} {N Nf k : Nat} (hv : ValidUpdate workers f centroids A counts N Nf k) :
    ∃ C Counts z, computecentroids workers f centroids A counts Nf k = some (C, Counts, z) ∧
      IsVec Counts k (clusterSize A (List.range N)) ∧
      IsMat C k Nf (clusterMean f A N Nf) := by
  have hw : ∀ chunk ∈ workers, ∀ i ∈ chunk, i < N := by
    intro chunk hchunk i hi
    have : i ∈ workers.flatten := List.mem_flatten.mpr ⟨chunk, hchunk, hi⟩
    exact List.mem_range.mp (hv.sched.subset this)
  obtain ⟨cnt, ck, hreg, hcnt, hck⟩ := region_spec (k := k) hv.shapeF hv.shapeA hv.labels workers hw
  have hcnt' : IsVec cnt k (clusterSize A (List.range N)) :=
    hcnt.congrVec (fun c _ => clusterSize_perm hv.sched c)
  have hck' : IsMat ck k Nf (clusterSum f A Nf (List.range N)) :=
    hck.congrMat (fun c j _ _ => clusterSum_perm hv.sched c j)
  obtain ⟨C, z, hnorm, hC⟩ := normalize_spec hcnt' hck'
  refine ⟨C, cnt, z, ?_, hcnt', hC.congrMat ?_⟩
  · simp only [computecentroids, Option.bind_eq_bind, fill_exact _ _ _ hv.shapeCounts,
      fill_exact _ _ _ hv.shapeC, Option.some_bind] at hreg ⊢
    rw [hreg]
    simp only [Option.some_bind, hnorm]
  · intro c j _ _
    unfold clusterMean
    by_cases h0 : clusterSize A (List.range N) c = 0
    · simp [h0, clusterSum_eq_zero h0]
    · simp [h0]

/-- Two valid calls whose inputs give every cluster the same size and the same sums
return the same result. -/
theorem computecentroids_unique {workers workers' : List (List Nat)}
    {f f' centroids centroids' : List ℚ} {A A' counts counts' : List Int} {N Nf k : Nat}
    (hv : ValidUpdate workers f centroids A counts N Nf k)
    (hv' : ValidUpdate workers' f' centroids' A' counts' N Nf k)
    (hsize : ∀ c, c < k → clusterSize A' (List.range N) c = clusterSize A (List.range N) c)
    (hsum : ∀ c j, c < k → j < Nf →
      clusterSum f' A' Nf (List.range N) c j = clusterSum f A Nf (List.range N) c j) :
    ∃ r, computecentroids workers f centroids A counts Nf k = some r ∧
      computecentroids workers' f' centroids' A' counts' Nf k = some r := by
  obtain ⟨C, Counts, z, h, hCounts, hC⟩ := computecentroids_spec hv
  obtain ⟨C', Counts', z', h', hCounts', hC'⟩ := computecentroids_spec hv'
  have e1 : Counts' = Counts := (hCounts'.congrVec hsize).uniqueVec hCounts
  have e2 : C' = C := by
    refine (hC'.congrMat ?_).uniqueMat hC
    intro c j hc hj
    simp only [clusterMean, hsize c hc, hsum c j hc hj]
  have e3 : z' = z := by
    rw [computecentroids_zero_counts h, computecentroids_zero_counts h', e1]
  subst e1; subst e2; subst e3
  exact ⟨_, h, h'⟩

/-! ## Reordering the points -/

theorem sum_members {M : Type} [AddCommMonoid M] (A : List Int) (l : List Nat) (c : Nat)
    (h : Nat → M) :
    ((members A l c).map h).sum =
      (l.map (fun i : Nat => if rd A (i : Int) = some (c : Int) then h i else 0)).sum := by
  induction l with
  | nil => rfl
  | cons i l ih =>
    have hcons : members A (i :: l) c = members A [i] c ++ members A l c :=
      members_append A [i] l c
    rw [hcons, List.map_append, List.sum_append, ih]
    by_cases hi : rd A (i : Int) = some (c : Int) <;> simp [members, hi]

theorem sum_range_perm {M : Type} [AddCommMonoid M] {N : Nat} (p : Equiv.Perm (Fin N))
    (g g' : Nat → M) (h : ∀ i : Fin N, g' i = g (p i)) :
    ((List.range N).map g').sum = ((List.range N).map g).sum := by
  rw [← List.map_coe_finRange, List.map_map, List.map_map]
  have h1 : List.map (g' ∘ Fin.val) (List.finRange N) =
      List.map (g ∘ Fin.val) (List.map p (List.finRange N)) := by
    rw [List.map_map]
    apply List.map_congr_left
    intro i _
    exact h i
  rw [h1]
  exact (p.map_finRange_perm.map _).sum_eq

theorem clusterSize_eq_sum (A : List Int) (l : List Nat) (c : Nat) :
    clusterSize A l c =
      (l.map (fun i : Nat => if rd A (i : Int) = some (c : Int) then (1 : Int) else 0)).sum := by
  rw [← sum_members A l c (fun _ => (1 : Int))]
  simp [clusterSize]

theorem clusterSize_permuted {A A' : List Int} {N : Nat} (p : Equiv.Perm (Fin N))
    (hA : ∀ i : Fin N, A'[(i : Nat)]? = A[(p i : Nat)]?) (c : Nat) :
    clusterSize A' (List.range N) c = clusterSize A (List.range N) c := by
  rw [clusterSize_eq_sum, clusterSize_eq_sum]
  apply sum_range_perm p
  intro i
  simp only [rd_nat, hA i]

theorem clusterSum_permuted {f f' : List ℚ} {A A' : List Int} {N Nf : Nat}
    (p : Equiv.Perm (Fin N))
    (hA : ∀ i : Fin N, A'[(i : Nat)]? = A[(p i : Nat)]?)
    (hF : ∀ i : Fin N, ∀ j, j < Nf → f'[(i : Nat) * Nf + j]? = f[(p i : Nat) * Nf + j]?)
    (c j : Nat) (hj : j < Nf) :
    clusterSum f' A' Nf (List.range N) c j = clusterSum f A Nf (List.range N) c j := by
  unfold clusterSum
  rw [sum_members, sum_members]
  apply sum_range_perm p
  intro i
  simp only [rd_nat, hA i, List.getD_eq_getElem?_getD, hF i j hj]

/-! ## The sum of the counts -/

theorem sum_label_indicator (a : Int) (k : Nat) :
    ((List.range k).map (fun c : Nat => if a = (c : Int) then (1 : Int) else 0)).sum =
      if 0 ≤ a ∧ a < (k : Int) then 1 else 0 := by
  induction k with
  | zero =>
    simp only [List.range_zero, List.map_nil, List.sum_nil]
    rw [if_neg]
    push_cast
    omega
  | succ m ih =>
    rw [List.range_succ, List.map_append, List.sum_append, ih]
    simp only [List.map_cons, List.map_nil, List.sum_cons, List.sum_nil, add_zero]
    push_cast
    split_ifs <;> omega

theorem sum_clusterSize (A : List Int) (l : List Nat) (hl : ∀ i ∈ l, i < A.length) (k : Nat) :
    ((List.range k).map (clusterSize A l)).sum =
      ((l.filter (fun i => decide (0 ≤ A.getD i 0 ∧ A.getD i 0 < (k : Int)))).length : Int) := by
  induction l with
  | nil =>
    have h0 : clusterSize A [] = fun _ => 0 := by
      funext c; simp [clusterSize, members_nil]
    simp [h0]
  | cons i l ih =>
    have hi : i < A.length := hl i (List.mem_cons_self _ _)
    have ha : A[i]? = some (A.getD i 0) := by
      simp [List.getD_eq_getElem?_getD, List.getElem?_eq_getElem hi]
    have hsplit : ∀ c, clusterSize A (i :: l) c =
        (if A.getD i 0 = (c : Int) then 1 else 0) + clusterSize A l c := by
      intro c
      rw [← clusterSize_single A i c _ ha, ← clusterSize_append]
      rfl
    have hmap : (List.range k).map (clusterSize A (i :: l)) =
        (List.range k).map (fun c : Nat => (if A.getD i 0 = (c : Int) then (1 : Int) else 0)
          + clusterSize A l c) :=
      List.map_congr_left (fun c _ => hsplit c)
    rw [hmap, List.sum_map_add, sum_label_indicator,
      ih (fun x hx => hl x (List.mem_cons_of_mem _ hx)), List.filter_cons]
    by_cases h : 0 ≤ A.getD i 0 ∧ A.getD i 0 < (k : Int)
    · rw [if_pos h, if_pos (decide_eq_true h), List.length_cons]
      push_cast
      ring
    · rw [if_neg h, if_neg (by simpa using h), zero_add]

/-- On a valid input the final counts sum to the number of labels below `k`. -/
theorem computecentroids_counts_sum {workers : List (List Nat)} {f centroids : List ℚ}
    {A counts : List Int} {N Nf k : Nat}
    (hv : ValidUpdate workers f centroids A counts N Nf k) :
    ∃ C Counts z, computecentroids workers f centroids A counts Nf k = some (C, Counts, z) ∧
      Counts.sum = (((List.range N).filter
        (fun i => decide (0 ≤ A.getD i 0 ∧ A.getD i 0 < (k : Int)))).length : Int) := by
  obtain ⟨C, Counts, z, h, hCounts, _⟩ := computecentroids_spec hv
  refine ⟨C, Counts, z, h, ?_⟩
  have hlist : Counts = (List.range k).map (clusterSize A (List.range N)) := by
    refine hCounts.uniqueVec ⟨by simp, fun c hc => ?_⟩
    simp [List.getElem?_map, List.getElem?_range hc]
  rw [hlist]
  exact sum_clusterSize A (List.range N)
    (fun i hi => by rw [hv.shapeA]; exact List.mem_range.mp hi) k

/-! ## The claims -/

/-- C1 (defect). On scenario 1 (`N = 4`, `Nf = 1`, `k = 2`, `F = [0,1,10,11]`,
`C = [0,10]`) `assignclass_euclidian` writes the label vector `[1,1,1,1]`, although
point `0` is at squared distance `0` from centroid `0` and `100` from centroid `1`:
the stored label is not the nearest centroid. -/
theorem assign_scenario1_not_argmin :
    assignclass_euclidian [0, 1, 10, 11] [0, 10] [0, 0, 0, 0] 4 1 2
        = some ([1, 1, 1, 1], true) ∧
      cur_distance [0, 1, 10, 11] [0, 10] 1 0 0 = some 0 ∧
      cur_distance [0, 1, 10, 11] [0, 10] 1 0 1 = some 100 := by
  refine ⟨?_, ?_, ?_⟩
  · simp [assignclass_euclidian, scanClusters, cur_distance, forLoop, rd, wr]
    norm_num
  · simp [cur_distance, forLoop, rd]
  · norm_num [cur_distance, forLoop, rd]

/-- C2. On every valid input of `update` the call returns, and for every cluster `c < k`
whose final count is positive and every feature `j < Nf`, the centroid entry `C[c,j]` is
the sum of `F[i,j]` over the points labelled `c` divided by the number of such points. -/
theorem computecentroids_mean (workers : List (List Nat)) (f centroids : List ℚ)
    (A counts : List Int) (N Nf k : Nat)
    (hv : ValidUpdate workers f centroids A counts N Nf k) :
    ∃ C Counts z, computecentroids workers f centroids A counts Nf k = some (C, Counts, z) ∧
      ∀ c, c < k → ∀ n, Counts[c]? = some n → 0 < n → ∀ j, j < Nf →
        C[c * Nf + j]? = some (clusterSum f A Nf (List.range N) c j /
          (clusterSize A (List.range N) c : ℚ)) := by
  obtain ⟨C, Counts, z, h, hCounts, hC⟩ := computecentroids_spec hv
  refine ⟨C, Counts, z, h, ?_⟩
  intro c hc n hn hpos j hj
  rw [hCounts.2 c hc] at hn
  have hne : clusterSize A (List.range N) c ≠ 0 := by
    have := Option.some.inj hn
    omega
  rw [hC.2 c j hc hj, clusterMean, if_neg hne]

/-- C2 on scenario 1: two workers, `F = [0,1,10,11]`, `A = [0,0,1,1]`, `k = 2`; the
centroids come out as `[1/2, 21/2]`. -/
theorem computecentroids_mean_witness :
    (∃ C Counts z, computecentroids [[0, 1], [2, 3]] [0, 1, 10, 11] [0, 10] [0, 0, 1, 1]
        [7, 7] 1 2 = some (C, Counts, z) ∧
      ∀ c, c < 2 → ∀ n, Counts[c]? = some n → 0 < n → ∀ j, j < 1 →
        C[c * 1 + j]? = some (clusterSum [0, 1, 10, 11] [0, 0, 1, 1] 1 (List.range 4) c j /
          (clusterSize [0, 0, 1, 1] (List.range 4) c : ℚ))) ∧
    computecentroids [[0, 1], [2, 3]] [0, 1, 10, 11] [0, 10] [0, 0, 1, 1] [7, 7] 1 2
      = some ([1 / 2, 21 / 2], [2, 2], 0) :=
  ⟨computecentroids_mean [[0, 1], [2, 3]] [0, 1, 10, 11] [0, 10] [0, 0, 1, 1] [7, 7] 4 1 2
      ⟨List.Perm.refl _, rfl, rfl, rfl, rfl, by decide⟩,
    by decide!⟩

/-- C3. On every valid input of `update` the call returns, and for every cluster `c < k`
the final `Counts[c]` is the number of points `i < N` with `A[i] = c`, whatever `Counts`
held before. -/
theorem computecentroids_counts (workers : List (List Nat)) (f centroids : List ℚ)
    (A counts : List Int) (N Nf k : Nat)
    (hv : ValidUpdate workers f centroids A counts N Nf k) :
    ∃ C Counts z, computecentroids workers f centroids A counts Nf k = some (C, Counts, z) ∧
      ∀ c, c < k → Counts[c]? = some (clusterSize A (List.range N) c) := by
  obtain ⟨C, Counts, z, h, hCounts, _⟩ := computecentroids_spec hv
  exact ⟨C, Counts, z, h, hCounts.2⟩

/-- C3 on scenario 2: `A = [0,0]`, `k = 3`, prior counts `[7,7,7]`; the counts come out
as `[2,0,0]`. -/
theorem computecentroids_counts_witness :
    (∃ C Counts z, computecentroids [[0, 1]] [0, 0, 1, 1] [0, 0, 5, 5, 9, 9] [0, 0]
        [7, 7, 7] 2 3 = some (C, Counts, z) ∧
      ∀ c, c < 3 → Counts[c]? = some (clusterSize [0, 0] (List.range 2) c)) ∧
    computecentroids [[0, 1]] [0, 0, 1, 1] [0, 0, 5, 5, 9, 9] [0, 0] [7, 7, 7] 2 3
      = some ([1 / 2, 1 / 2, 0, 0, 0, 0], [2, 0, 0], 2) :=
  ⟨computecentroids_counts [[0, 1]] [0, 0, 1, 1] [0, 0, 5, 5, 9, 9] [0, 0] [7, 7, 7] 2 2 3
      ⟨List.Perm.refl _, rfl, rfl, rfl, rfl, by decide⟩,
    by decide!⟩

/-- C4. On every valid input of `update` the call returns; and whenever a call returns,
on any input, the returned integer is the number of clusters `c < k` with final
`Counts[c] = 0`, so it lies between `0` and `k`. -/
theorem computecentroids_zero_count (workers : List (List Nat)) (f centroids : List ℚ)
    (A counts : List Int) (N Nf k : Nat) :
    (ValidUpdate workers f centroids A counts N Nf k →
      ∃ r, computecentroids workers f centroids A counts Nf k = some r) ∧
    ∀ C Counts z, computecentroids workers f centroids A counts Nf k = some (C, Counts, z) →
      z = (zeroClusters Counts k : Int) ∧ 0 ≤ z ∧ z ≤ (k : Int) := by
  refine ⟨?_, ?_⟩
  · intro hv
    obtain ⟨C, Counts, z, h, _⟩ := computecentroids_spec hv
    exact ⟨_, h⟩
  · intro C Counts z h
    have hz := computecentroids_zero_counts h
    have hle := zeroClusters_le Counts k
    refine ⟨hz, ?_, ?_⟩ <;> rw [hz] <;> omega

/-- C4 on scenario 2: `A = [0,0]`, `k = 3`; the call returns the counts `[2,0,0]` and the
integer `2`, the number of zero counts. -/
theorem computecentroids_zero_count_witness :
    (∃ C Counts z, computecentroids [[0, 1]] [0, 0, 1, 1] [0, 0, 5, 5, 9, 9] [0, 0]
        [7, 7, 7] 2 3 = some (C, Counts, z) ∧
      z = (zeroClusters Counts 3 : Int) ∧ 0 ≤ z ∧ z ≤ 3) ∧
    computecentroids [[0, 1]] [0, 0, 1, 1] [0, 0, 5, 5, 9, 9] [0, 0] [7, 7, 7] 2 3
      = some ([1 / 2, 1 / 2, 0, 0, 0, 0], [2, 0, 0], 2) := by
  have h := computecentroids_zero_count [[0, 1]] [0, 0, 1, 1] [0, 0, 5, 5, 9, 9] [0, 0]
    [7, 7, 7] 2 2 3
  obtain ⟨⟨C, Counts, z⟩, hr⟩ := h.1 ⟨List.Perm.refl _, rfl, rfl, rfl, rfl, by decide⟩
  exact ⟨⟨C, Counts, z, hr, h.2 C Counts z hr⟩, by decide!⟩

/-- C5 (defect). A point with a negative label is not skipped.  With `N = 1`, `Nf = 1`,
`k = 1`, `F = [5]`, `A = [-1]` the accumulation addresses cell `-1` of the worker's
private buffers, outside both, so the call has no defined result; on the input with
that point removed the call returns `C = [0]`, `Counts = [0]`, `zeroCount = 1`. -/
theorem computecentroids_negative_label_not_skipped :
    computecentroids [[0]] [5] [0] [-1] [0] 1 1 = none ∧
      accumPoint [5] [-1] 1 1 0 ([0], [0]) = none ∧
      computecentroids [[]] [] [0] [] [0] 1 1 = some ([0], [0], 1) := by
  refine ⟨by decide, by decide, ?_⟩
  simp [computecentroids, fill, accumulate, accumPoint, merge, Kmeans.normalize, rowLoop,
    divq, forLoop, rd, wr]

/-- C6 (defect). With a negative label present no counts are produced at all.  With
`N = 2`, `Nf = 1`, `k = 1`, `F = [3,5]`, `A = [0,-1]` exactly one label lies in `[0,k)`,
but the call has no defined result, so there is no count vector summing to `1`. -/
theorem computecentroids_negative_label_no_counts :
    computecentroids [[0, 1]] [3, 5] [0] [0, -1] [0] 1 1 = none ∧
      ([(0 : Int), -1].filter (fun a => decide (0 ≤ a ∧ a < 1))).length = 1 := by
  refine ⟨by decide, by decide⟩

/-- C7. On every valid input of `update` the call returns, which it could not do after a
division by a zero count (`divq y 0` has no value), and for every cluster `c < k` whose
final count is `0` the whole centroid row `C[c,:]` is zero, whatever `C` held before. -/
theorem computecentroids_empty_cluster_zero (workers : List (List Nat))
    (f centroids : List ℚ) (A counts : List Int) (N Nf k : Nat)
    (hv : ValidUpdate workers f centroids A counts N Nf k) :
    (∃ C Counts z, computecentroids workers f centroids A counts Nf k = some (C, Counts, z) ∧
      ∀ c, c < k → Counts[c]? = some 0 → ∀ j, j < Nf → C[c * Nf + j]? = some 0) ∧
    ∀ y, divq y 0 = none := by
  obtain ⟨C, Counts, z, h, hCounts, hC⟩ := computecentroids_spec hv
  refine ⟨⟨C, Counts, z, h, ?_⟩, fun y => by simp [divq]⟩
  intro c hc h0 j hj
  rw [hCounts.2 c hc] at h0
  rw [hC.2 c j hc hj, clusterMean, if_pos (Option.some.inj h0)]

/-- C7 on scenario 2: `F = [[0,0],[1,1]]`, `A = [0,0]`, `k = 3`, prior
`C = [[0,0],[5,5],[9,9]]`; rows `1` and `2` come out as `[0,0]`. -/
theorem computecentroids_empty_cluster_zero_witness :
    ((∃ C Counts z, computecentroids [[0, 1]] [0, 0, 1, 1] [0, 0, 5, 5, 9, 9] [0, 0]
        [7, 7, 7] 2 3 = some (C, Counts, z) ∧
      ∀ c, c < 3 → Counts[c]? = some 0 → ∀ j, j < 2 → C[c * 2 + j]? = some 0) ∧
      ∀ y, divq y 0 = none) ∧
    computecentroids [[0, 1]] [0, 0, 1, 1] [0, 0, 5, 5, 9, 9] [0, 0] [7, 7, 7] 2 3
      = some ([1 / 2, 1 / 2, 0, 0, 0, 0], [2, 0, 0], 2) :=
  ⟨computecentroids_empty_cluster_zero [[0, 1]] [0, 0, 1, 1] [0, 0, 5, 5, 9, 9] [0, 0]
      [7, 7, 7] 2 2 3 ⟨List.Perm.refl _, rfl, rfl, rfl, rfl, by decide⟩,
    by decide!⟩

/-- C8 (defect). With `k = 1` the label written by `assignclass_euclidian` is `1`, which
is not below `k`; the following `update` with the same `k` skips the point, so the counts
`[0]` sum to `0` and not to `N = 1`. -/
theorem assign_label_out_of_range :
    assignclass_euclidian [0] [0] [0] 1 1 1 = some ([1], true) ∧
      computecentroids [[0]] [0] [0] [1] [0] 1 1 = some ([0], [0], 1) := by
  refine ⟨by decide, ?_⟩
  simp [computecentroids, fill, accumulate, accumPoint, merge, Kmeans.normalize, rowLoop,
    divq, forLoop, rd, wr]

/-- C9. For valid inputs that differ only in the prior contents of `C` and `Counts`, both
calls return, and they return the same centroids, counts and zero count. -/
theorem computecentroids_prior_independent (workers : List (List Nat)) (f C₁ C₂ : List ℚ)
    (A Counts₁ Counts₂ : List Int) (N Nf k : Nat)
    (h₁ : ValidUpdate workers f C₁ A Counts₁ N Nf k)
    (h₂ : ValidUpdate workers f C₂ A Counts₂ N Nf k) :
    ∃ r, computecentroids workers f C₁ A Counts₁ Nf k = some r ∧
      computecentroids workers f C₂ A Counts₂ Nf k = some r :=
  computecentroids_unique h₁ h₂ (fun _ _ => rfl) (fun _ _ _ _ => rfl)

/-- C9 on scenario 2 with two different prior contents of `C` and `Counts`. -/
theorem computecentroids_prior_independent_witness :
    ∃ r, computecentroids [[0, 1]] [0, 0, 1, 1] [0, 0, 5, 5, 9, 9] [0, 0] [7, 7, 7] 2 3
        = some r ∧
      computecentroids [[0, 1]] [0, 0, 1, 1] [1, 2, 3, 4, 5, 6] [0, 0] [-1, 0, 8] 2 3
        = some r :=
  computecentroids_prior_independent [[0, 1]] [0, 0, 1, 1] [0, 0, 5, 5, 9, 9]
    [1, 2, 3, 4, 5, 6] [0, 0] [7, 7, 7] [-1, 0, 8] 2 2 3
    ⟨List.Perm.refl _, rfl, rfl, rfl, rfl, by decide⟩
    ⟨List.Perm.refl _, rfl, rfl, rfl, rfl, by decide⟩

/-- C10. Let `p` permute the point indices and let `(F', A')` be `(F, A)` with rows and
labels permuted jointly, `F'[i,:] = F[p i,:]` and `A'[i] = A[p i]`.  On valid inputs both
calls return, and they return the same centroids, counts and zero count. -/
theorem computecentroids_point_order (workers workers' : List (List Nat))
    (f f' centroids : List ℚ) (A A' counts : List Int) (N Nf k : Nat)
    (p : Equiv.Perm (Fin N))
    (hv : ValidUpdate workers f centroids A counts N Nf k)
    (hv' : ValidUpdate workers' f' centroids A' counts N Nf k)
    (hA : ∀ i : Fin N, A'[(i : Nat)]? = A[(p i : Nat)]?)
    (hF : ∀ i : Fin N, ∀ j, j < Nf → f'[(i : Nat) * Nf + j]? = f[(p i : Nat) * Nf + j]?) :
    ∃ r, computecentroids workers f centroids A counts Nf k = some r ∧
      computecentroids workers' f' centroids A' counts Nf k = some r :=
  computecentroids_unique hv hv' (fun c _ => clusterSize_permuted p hA c)
    (fun c j _ hj => clusterSum_permuted p hA hF c j hj)

/-- C10 on three points of two features, rotated: `F = [[1,2],[3,4],[5,6]]`,
`A = [0,1,0]`, and `p = (0 1 2)`. -/
theorem computecentroids_point_order_witness :
    ∃ r, computecentroids [[0, 1, 2]] [1, 2, 3, 4, 5, 6] [9, 9, 9, 9] [0, 1, 0] [7, 7] 2 2
        = some r ∧
      computecentroids [[0, 1, 2]] [3, 4, 5, 6, 1, 2] [9, 9, 9, 9] [1, 0, 0] [7, 7] 2 2
        = some r :=
  computecentroids_point_order [[0, 1, 2]] [[0, 1, 2]] [1, 2, 3, 4, 5, 6] [3, 4, 5, 6, 1, 2]
    [9, 9, 9, 9] [0, 1, 0] [1, 0, 0] [7, 7] 3 2 2 (finRotate 3)
    ⟨List.Perm.refl _, rfl, rfl, rfl, rfl, by decide⟩
    ⟨List.Perm.refl _, rfl, rfl, rfl, rfl, by decide⟩
    (by decide) (by decide)

/-! ## Empty clusters only -/

theorem zeroClusters_replicate (k : Nat) : zeroClusters (List.replicate k (0 : Int)) k = k := by
  unfold zeroClusters
  have h : (List.range k).filter
      (fun c => decide ((List.replicate k (0 : Int))[c]? = some 0)) = List.range k := by
    apply List.filter_eq_self.mpr
    intro c hc
    simp [List.getElem?_replicate, List.mem_range.mp hc]
  rw [h, List.length_range]

theorem computecentroids_all_empty {workers : List (List Nat)} {f centroids : List ℚ}
    {A counts : List Int} {N Nf k : Nat}
    (hv : ValidUpdate workers f centroids A counts N Nf k)
    (hempty : ∀ c, c < k → clusterSize A (List.range N) c = 0) :
    computecentroids workers f centroids A counts Nf k =
      some (List.replicate (k * Nf) (0 : ℚ), List.replicate k (0 : Int), (k : Int)) := by
  obtain ⟨C, Counts, z, h, hCounts, hC⟩ := computecentroids_spec hv
  have e1 : Counts = List.replicate k (0 : Int) :=
    (hCounts.congrVec hempty).uniqueVec (isVec_replicate k)
  have e2 : C = List.replicate (k * Nf) (0 : ℚ) := by
    refine (hC.congrMat ?_).uniqueMat (isMat_replicate k Nf)
    intro c j hc _
    simp [clusterMean, hempty c hc]
  have e3 : z = (k : Int) := by
    rw [computecentroids_zero_counts h, e1, zeroClusters_replicate]
  rw [h, e1, e2, e3]

theorem clusterSize_range_zero (A : List Int) (c : Nat) :
    clusterSize A (List.range 0) c = 0 := by
  simp [clusterSize, members]

theorem clusterSize_of_high {A : List Int} {k : Nat} (hhigh : ∀ a ∈ A, (k : Int) ≤ a)
    (l : List Nat) (c : Nat) (hc : c < k) : clusterSize A l c = 0 := by
  have : members A l c = [] := by
    unfold members
    apply List.filter_eq_nil_iff.mpr
    intro i _
    rw [rd_nat]
    intro hi
    have hi' : A[i]? = some (c : Int) := by simpa using hi
    have hmem : (c : Int) ∈ A := List.getElem?_mem hi'
    have := hhigh _ hmem
    omega
  simp [clusterSize, this]

/-! ## The scan of `assignclass_euclidian` -/

theorem getD_of_lt {α : Type} (b : List α) (n : Nat) (d : α) (h : n < b.length) :
    b[n]? = some (b.getD n d) := by
  simp [List.getD_eq_getElem?_getD, List.getElem?_eq_getElem h]

theorem cur_distance_spec {f centroids : List ℚ} {N Nf k i c : Nat}
    (hf : f.length = N * Nf) (hc : centroids.length = k * Nf) (hi : i < N) (hck : c < k) :
    cur_distance f centroids Nf i c = some (sqDist f Nf i (row centroids Nf c)) := by
  obtain ⟨s, hs, hP⟩ := forLoop_inv (fun j cur => do
      let x ← rd f ((i : Int) * Nf + j)
      let y ← rd centroids ((c : Int) * Nf + j)
      let term := x - y
      some (cur + term * term))
    (fun n cur => cur = ((List.range n).map
      (fun j => (f.getD (i * Nf + j) 0 - row centroids Nf c j) ^ 2)).sum)
    Nf 0 (by simp)
    (by
      intro j t hj ht
      have h1 : ((i : Int) * Nf + j) = ((i * Nf + j : Nat) : Int) := by push_cast; ring
      have h2 : ((c : Int) * Nf + j) = ((c * Nf + j : Nat) : Int) := by push_cast; ring
      have l1 : i * Nf + j < f.length := by rw [hf]; exact idx_lt hi hj
      have l2 : c * Nf + j < centroids.length := by rw [hc]; exact idx_lt hck hj
      refine ⟨_, ?_, rfl⟩
      beta_reduce
      rw [h1, h2, rd_nat, rd_nat, getD_of_lt f _ 0 l1, getD_of_lt centroids _ 0 l2]
      simp only [Option.bind_eq_bind, Option.some_bind, Option.some.injEq]
      rw [ht, List.range_succ, List.map_append, List.sum_append]
      simp only [List.map_cons, List.map_nil, List.sum_cons, List.sum_nil, add_zero, row]
      ring)
  rw [cur_distance, hs, hP, sqDist]

theorem scanClusters_spec {f centroids : List ℚ} {N Nf k i : Nat}
    (hf : f.length = N * Nf) (hc : centroids.length = k * Nf) (hi : i < N) (hk : 0 < k) :
    ∃ b, b < k ∧
      scanClusters f centroids Nf k i = some ((b : Int), sqDist f Nf i (row centroids Nf b)) ∧
      (∀ c, c < k → sqDist f Nf i (row centroids Nf b) ≤ sqDist f Nf i (row centroids Nf c)) ∧
      (∀ c, c < b → sqDist f Nf i (row centroids Nf b) < sqDist f Nf i (row centroids Nf c)) := by
  obtain ⟨s, hs, hP⟩ := forLoop_inv (fun c s => do
      let cur ← cur_distance f centroids Nf i c
      if s.1 = -1 ∨ cur < s.2 then some ((c : Int), cur) else some s)
    (fun n (s : Int × ℚ) => (n = 0 ∧ s = (-1, 0)) ∨
      ∃ b, b < n ∧ s = ((b : Int), sqDist f Nf i (row centroids Nf b)) ∧
        (∀ c, c < n → sqDist f Nf i (row centroids Nf b) ≤ sqDist f Nf i (row centroids Nf c)) ∧
        (∀ c, c < b → sqDist f Nf i (row centroids Nf b) < sqDist f Nf i (row centroids Nf c)))
    k (-1, 0) (Or.inl ⟨rfl, rfl⟩)
    (by
      intro n s hn hs
      have hcur := cur_distance_spec (c := n) hf hc hi hn
      rcases hs with ⟨h0, hs0⟩ | ⟨b, hb, hsb, hmin, hlow⟩
      · subst h0; subst hs0
        refine ⟨((0 : Nat), sqDist f Nf i (row centroids Nf 0)), ?_, Or.inr ⟨0, by omega, rfl, ?_, ?_⟩⟩
        · simp [hcur]
        · intro c hc0
          have : c = 0 := by omega
          subst this; exact le_refl _
        · intro c hc0; omega
      · subst hsb
        have hne : ¬ ((b : Int) = -1) := by omega
        by_cases hlt : sqDist f Nf i (row centroids Nf n) < sqDist f Nf i (row centroids Nf b)
        · refine ⟨((n : Int), sqDist f Nf i (row centroids Nf n)), ?_,
            Or.inr ⟨n, by omega, rfl, ?_, ?_⟩⟩
          · simp [hcur, hlt]
          · intro c hcn
            by_cases h : c = n
            · subst h; exact le_refl _
            · exact le_of_lt (lt_of_lt_of_le hlt (hmin c (by omega)))
          · intro c hcn
            exact lt_of_lt_of_le hlt (hmin c hcn)
        · refine ⟨((b : Int), sqDist f Nf i (row centroids Nf b)), ?_,
            Or.inr ⟨b, by omega, rfl, ?_, hlow⟩⟩
          · simp [hcur, hlt, hne]
          · intro c hcn
            by_cases h : c = n
            · subst h; exact not_lt.mp hlt
            · exact hmin c (by omega))
  rcases hP with ⟨h0, _⟩ | ⟨b, hb, hsb, hmin, hlow⟩
  · omega
  · exact ⟨b, hb, by rw [scanClusters, hs, hsb], hmin, hlow⟩

theorem scanClusters_isSome {f centroids : List ℚ} {N Nf k i : Nat}
    (hf : f.length = N * Nf) (hc : centroids.length = k * Nf) (hi : i < N) :
    ∃ s, scanClusters f centroids Nf k i = some s := by
  rcases Nat.eq_zero_or_pos k with h | h
  · subst h; exact ⟨_, rfl⟩
  · obtain ⟨b, _, hb, _⟩ := scanClusters_spec hf hc hi h
    exact ⟨_, hb⟩

theorem assignPoint_spec {f centroids : List ℚ} {N Nf k i : Nat} {a : List Int}
    (hf : f.length = N * Nf) (hc : centroids.length = k * Nf) (hi : i < N)
    (ha : a.length = N) : assignPoint f centroids Nf k i a = some (a.set i 1) := by
  obtain ⟨s, hs⟩ := scanClusters_isSome (k := k) hf hc hi
  simp only [assignPoint, hs, Option.bind_eq_bind, Option.some_bind]
  exact wr_nat _ _ _ (by rw [ha]; exact hi)

theorem eq_replicate_one {a : List Int} {N : Nat} (hlen : a.length = N)
    (h : ∀ i, i < N → a[i]? = some 1) : a = List.replicate N 1 := by
  apply List.ext_getElem?
  intro i
  by_cases hi : i < N
  · rw [h i hi]; simp [List.getElem?_replicate, hi]
  · rw [List.getElem?_eq_none (by omega), List.getElem?_eq_none (by simp; omega)]

theorem set_one_spec {a : List Int} {N i : Nat} (P : Nat → Prop) (hlen : a.length = N)
    (hi : i < N) (h : ∀ x, P x → a[x]? = some 1) :
    (a.set i 1).length = N ∧ ∀ x, (P x ∨ x = i) → (a.set i 1)[x]? = some 1 := by
  refine ⟨by simpa using hlen, ?_⟩
  intro x hx
  rw [List.getElem?_set]
  by_cases hxi : i = x
  · subst hxi; simp [hlen, hi]
  · rw [if_neg hxi]
    rcases hx with hx | hx
    · exact h x hx
    · exact absurd hx.symm hxi

theorem assign_loop_spec {f centroids : List ℚ} {A : List Int} {N Nf k : Nat}
    (hf : f.length = N * Nf) (hc : centroids.length = k * Nf) (hA : A.length = N) :
    assignclass_euclidian f centroids A N Nf k = some (List.replicate N 1, true) := by
  obtain ⟨a, ha, hlen, hall⟩ := forLoop_inv (fun i a => do
      let _ ← scanClusters f centroids Nf k i
      wr a (i : Int) 1)
    (fun n a => a.length = N ∧ ∀ x, x < n → a[x]? = some 1) N A
    ⟨hA, fun x hx => by omega⟩
    (by
      rintro i a hi ⟨hlen, hall⟩
      refine ⟨a.set i 1, assignPoint_spec hf hc hi hlen, ?_⟩
      obtain ⟨h1, h2⟩ := set_one_spec (fun x => x < i) hlen hi hall
      exact ⟨h1, fun x hx => h2 x (by omega)⟩)
  simp only [assignclass_euclidian, Option.bind_eq_bind] at ha ⊢
  rw [ha, eq_replicate_one hlen hall]
  rfl

theorem assign_order_spec {f centroids : List ℚ} {A : List Int} {N Nf k : Nat}
    {order : List Nat} (hf : f.length = N * Nf) (hc : centroids.length = k * Nf)
    (hA : A.length = N) (ho : order.Perm (List.range N)) :
    assignclass_order order f centroids A Nf k = some (List.replicate N 1, true) := by
  obtain ⟨a, ha, hlen, hall⟩ := foldlM_inv (fun a i => assignPoint f centroids Nf k i a)
    (fun pre a => a.length = N ∧ ∀ x, x ∈ pre → a[x]? = some 1) order A
    ⟨hA, fun x hx => by simp at hx⟩
    (by
      rintro pre i a hi ⟨hlen, hall⟩
      have hiN : i < N := List.mem_range.mp (ho.subset hi)
      refine ⟨a.set i 1, assignPoint_spec hf hc hiN hlen, ?_⟩
      obtain ⟨h1, h2⟩ := set_one_spec (fun x => x ∈ pre) hlen hiN hall
      exact ⟨h1, fun x hx => h2 x (by simpa using hx)⟩)
  have hall' : ∀ x, x < N → a[x]? = some 1 :=
    fun x hx => hall x (ho.symm.subset (List.mem_range.mpr hx))
  simp only [assignclass_order, Option.bind_eq_bind]
  rw [ha, eq_replicate_one hlen hall']
  rfl

/-! ## The parallel region against one sequential pass -/

theorem computecentroids_eq_region (workers : List (List Nat)) (f centroids : List ℚ)
    (A counts : List Int) (Nf k : Nat) :
    computecentroids workers f centroids A counts Nf k =
      (fill counts k (0 : Int)).bind fun counts0 =>
      (fill centroids (k * Nf) (0 : ℚ)).bind fun centroids0 =>
      (parallelRegion workers f A Nf k (counts0, centroids0)).bind fun sh =>
      (Kmeans.normalize Nf k sh.1 sh.2).bind fun r => some (r.1, sh.1, r.2) :=
  rfl

theorem sequentialPass_spec {f : List ℚ} {A : List Int} {N Nf k : Nat}
    (hf : f.length = N * Nf) (hA : A.length = N) (hpos : ∀ a ∈ A, (0 : Int) ≤ a) :
    ∃ cnt ck, sequentialPass f A N Nf k = some (cnt, ck) ∧
      IsVec cnt k (clusterSize A (List.range N)) ∧
      IsMat ck k Nf (clusterSum f A Nf (List.range N)) := by
  obtain ⟨s, hs, hP⟩ := forLoop_inv (fun i s => accumPoint f A Nf k i s)
    (fun n s => n ≤ N → (IsVec s.1 k (clusterSize A (List.range n)) ∧
      IsMat s.2 k Nf (clusterSum f A Nf (List.range n))))
    N (List.replicate k (0 : Int), List.replicate (k * Nf) (0 : ℚ))
    (fun _ => ⟨(isVec_replicate k).congrVec (fun c _ => by simp [clusterSize, members]),
      (isMat_replicate k Nf).congrMat (fun c j _ _ => by simp [clusterSum, members])⟩)
    (by
      rintro i ⟨lc, lck⟩ hi hprev
      obtain ⟨hv, hm⟩ := hprev (by omega)
      have hiA : i < A.length := by rw [hA]; exact hi
      have ha : A[i]? = some A[i] := List.getElem?_eq_getElem hiA
      obtain ⟨lc', lck', h1, h2, h3⟩ :=
        accumPoint_spec (k := k) hf hi A[i] ha (hpos _ (List.getElem_mem hiA)) hv hm
      refine ⟨(lc', lck'), h1, fun _ => ⟨h2.congrVec ?_, h3.congrMat ?_⟩⟩
      · intro c _
        rw [List.range_succ, clusterSize_append, clusterSize_single A i c _ ha]
      · intro c j _ _
        rw [List.range_succ, clusterSum_append, clusterSum_single f A Nf i c j _ ha])
  obtain ⟨h1, h2⟩ := hP (le_refl N)
  exact ⟨s.1, s.2, hs, h1, h2⟩

theorem parallelRegion_spec {f : List ℚ} {A : List Int} {N Nf k : Nat}
    {workers : List (List Nat)}
    (hf : f.length = N * Nf) (hA : A.length = N) (hpos : ∀ a ∈ A, (0 : Int) ≤ a)
    (hw : IsSchedule workers N) :
    ∃ cnt ck, parallelRegion workers f A Nf k
        (List.replicate k (0 : Int), List.replicate (k * Nf) (0 : ℚ)) = some (cnt, ck) ∧
      IsVec cnt k (clusterSize A (List.range N)) ∧
      IsMat ck k Nf (clusterSum f A Nf (List.range N)) := by
  have hmem : ∀ chunk ∈ workers, ∀ i ∈ chunk, i < N := by
    intro chunk hchunk i hi
    have : i ∈ workers.flatten := List.mem_flatten.mpr ⟨chunk, hchunk, hi⟩
    exact List.mem_range.mp (hw.subset this)
  obtain ⟨cnt, ck, hreg, hcnt, hck⟩ := region_spec (k := k) hf hA hpos workers hmem
  exact ⟨cnt, ck, hreg, hcnt.congrVec (fun c _ => clusterSize_perm hw c),
    hck.congrMat (fun c j _ _ => clusterSum_perm hw c j)⟩

/-! ## The mean minimises the sum of squared distances -/

theorem sum_sq_sub (xs : List ℚ) (m : ℚ) :
    (xs.map (fun x => (x - m) ^ 2)).sum =
      (xs.map (fun x => x ^ 2)).sum - 2 * m * xs.sum + (xs.length : ℚ) * m ^ 2 := by
  induction xs with
  | nil => simp
  | cons x xs ih =>
    simp only [List.map_cons, List.sum_cons, List.length_cons, ih]
    push_cast
    ring

theorem mean_minimises (xs : List ℚ) (m : ℚ) (hne : xs ≠ []) :
    (xs.map (fun x => (x - xs.sum / (xs.length : ℚ)) ^ 2)).sum ≤
      (xs.map (fun x => (x - m) ^ 2)).sum := by
  have hlen : (0 : ℚ) < (xs.length : ℚ) := by
    have : 0 < xs.length := List.length_pos.mpr hne
    exact_mod_cast this
  rw [sum_sq_sub, sum_sq_sub]
  have hsum : xs.sum = (xs.length : ℚ) * (xs.sum / (xs.length : ℚ)) := by
    field_simp
  have key : ((xs.map (fun x => x ^ 2)).sum - 2 * m * xs.sum + (xs.length : ℚ) * m ^ 2) -
      ((xs.map (fun x => x ^ 2)).sum - 2 * (xs.sum / (xs.length : ℚ)) * xs.sum +
        (xs.length : ℚ) * (xs.sum / (xs.length : ℚ)) ^ 2) =
      (xs.length : ℚ) * (m - xs.sum / (xs.length : ℚ)) ^ 2 := by
    generalize xs.sum / (xs.length : ℚ) = μ at hsum ⊢
    rw [hsum]
    ring
  have hnonneg : 0 ≤ (xs.length : ℚ) * (m - xs.sum / (xs.length : ℚ)) ^ 2 :=
    mul_nonneg (le_of_lt hlen) (sq_nonneg _)
  linarith

theorem list_sum_le_sum {α : Type} (l : List α) (g h : α → ℚ) (hle : ∀ x ∈ l, g x ≤ h x) :
    (l.map g).sum ≤ (l.map h).sum := by
  induction l with
  | nil => simp
  | cons x l ih =>
    simp only [List.map_cons, List.sum_cons]
    exact add_le_add (hle x (List.mem_cons_self _ _))
      (ih (fun y hy => hle y (List.mem_cons_of_mem _ hy)))

theorem list_sum_comm {α β : Type} (l₁ : List α) (l₂ : List β) (g : α → β → ℚ) :
    (l₁.map (fun x => (l₂.map (fun y => g x y)).sum)).sum =
      (l₂.map (fun y => (l₁.map (fun x => g x y)).sum)).sum := by
  induction l₁ with
  | nil => simp
  | cons x l ih =>
    simp only [List.map_cons, List.sum_cons, ih, List.sum_map_add]

theorem clusterCost_eq (f : List ℚ) (A : List Int) (N Nf c : Nat) (v : Nat → ℚ) :
    clusterCost f A N Nf c v =
      ((List.range Nf).map (fun j =>
        (((members A (List.range N) c).map (fun i => f.getD (i * Nf + j) 0)).map
          (fun x => (x - v j) ^ 2)).sum)).sum := by
  unfold clusterCost sqDist
  rw [list_sum_comm]
  simp only [List.map_map, Function.comp_def]

theorem clusterCost_mean_le (f : List ℚ) (A : List Int) (N Nf c : Nat) (m : Nat → ℚ)
    (hne : clusterSize A (List.range N) c ≠ 0) :
    clusterCost f A N Nf c (clusterMean f A N Nf c) ≤ clusterCost f A N Nf c m := by
  have hmem : members A (List.range N) c ≠ [] := by
    intro h; exact hne (by simp [clusterSize, h])
  rw [clusterCost_eq, clusterCost_eq]
  apply list_sum_le_sum
  intro j _
  have hmean : clusterMean f A N Nf c j =
      ((members A (List.range N) c).map (fun i => f.getD (i * Nf + j) 0)).sum /
        ((((members A (List.range N) c).map (fun i => f.getD (i * Nf + j) 0)).length : Nat) : ℚ) := by
    rw [clusterMean, if_neg hne, clusterSum, clusterSize, List.length_map]
    push_cast
    rfl
  rw [hmean]
  exact mean_minimises _ (m j) (by simpa using hmem)

theorem clusterCost_congr (f : List ℚ) (A : List Int) (N Nf c : Nat) (v w : Nat → ℚ)
    (h : ∀ j, j < Nf → v j = w j) : clusterCost f A N Nf c v = clusterCost f A N Nf c w := by
  unfold clusterCost sqDist
  congr 1
  apply List.map_congr_left
  intro i _
  congr 1
  apply List.map_congr_left
  intro j hj
  rw [h j (List.mem_range.mp hj)]

/-! ## The checks of `py_computecentroids` -/

theorem narrow_of_lt {d : Nat} (h : d < 2147483648) : narrow d = (d : Int) := by
  unfold narrow
  omega

theorem narrow_wraps (d : Nat) : narrow (d + 4294967296) = narrow d := by
  unfold narrow
  push_cast
  omega

theorem checkArgs_passed {args : List PyObject} {a : KernelArgs}
    (h : checkArgs args = some (Checked.passed a)) :
    args = [PyObject.ndarray a.fmatrix, PyObject.ndarray a.centroids,
        PyObject.ndarray a.assignments, PyObject.ndarray a.counts] ∧
      a.counts.dtype = NpyType.NPY_INT32 ∧ a.fmatrix.dtype = a.centroids.dtype ∧
      ∃ d₀ d₁ e₀, a.fmatrix.dims = [d₀, d₁] ∧ a.centroids.dims = [e₀, a.Nf] ∧
        a.assignments.dims = [a.N] ∧ a.counts.dims[0]? = some a.k ∧
        narrow d₀ = (a.N : Int) ∧ narrow d₁ = (a.Nf : Int) ∧ narrow e₀ = (a.k : Int) := by
  unfold checkArgs at h
  split at h
  · rename_i o₁ o₂ o₃ o₄
    cases o₁ <;> cases o₂ <;> cases o₃ <;> cases o₄ <;>
      simp only [contiguousArray] at h <;> try (split at h <;> simp at h)
    repeat' split at h
    all_goals try simp at h
    rename_i _ fm hF _ cen hC _ cnt hCounts _ asg hA hty hty' _ _ _ d₀ d₁ e₀ e₁ n
      hdF hdC hdA hNf hn _ m hm hmk
    have eF := (Option.ite_none_right_eq_some.mp hF).2
    have eC := (Option.ite_none_right_eq_some.mp hC).2
    have eCounts := (Option.ite_none_right_eq_some.mp hCounts).2
    have eA := (Option.ite_none_right_eq_some.mp hA).2
    simp only [Option.some.injEq] at eF eC eCounts eA
    subst eF eC eCounts eA h
    refine ⟨rfl, hty, hty', d₀, d₁, e₀, hdF, ?_, ?_, ?_, ?_, ?_, ?_⟩
    · dsimp only
      rw [hdC, ← hNf, Int.toNat_ofNat]
    · dsimp only
      rw [hdA, ← hn, Int.toNat_ofNat]
    · dsimp only
      rw [hm, ← hmk, Int.toNat_ofNat]
    · dsimp only
      rw [← hn, Int.toNat_ofNat]
    · dsimp only
      rw [← hNf, Int.toNat_ofNat]
    · dsimp only
      rw [← hmk, Int.toNat_ofNat]
  · simp at h


theorem checkArgs_undefined {F C A Counts : NdArray}
    (h : checkArgs [PyObject.ndarray F, PyObject.ndarray C, PyObject.ndarray A,
      PyObject.ndarray Counts] = none) :
    Counts.dtype = NpyType.NPY_INT32 ∧ F.dtype = C.dtype ∧
      ∃ d₀ d₁ e₀ e₁ n, F.dims = [d₀, d₁] ∧ C.dims = [e₀, e₁] ∧ A.dims = [n] ∧
        ((e₁ : Nat) : Int) = narrow d₁ ∧ ((n : Nat) : Int) = narrow d₀ ∧
        Counts.dims[0]? = none := by
  simp only [checkArgs, contiguousArray] at h
  repeat' split at h
  all_goals try simp at h
  rename_i _ fm hF _ cen hC _ cnt hCounts _ asg hA hty hty' _ _ _ d₀ d₁ e₀ e₁ n
    hdF hdC hdA hNf hn _ hm
  have eF := (Option.ite_none_right_eq_some.mp hF).2
  have eC := (Option.ite_none_right_eq_some.mp hC).2
  have eCounts := (Option.ite_none_right_eq_some.mp hCounts).2
  have eA := (Option.ite_none_right_eq_some.mp hA).2
  simp only [Option.some.injEq] at eF eC eCounts eA
  subst eF eC eCounts eA
  exact ⟨not_not.mp hty, not_not.mp hty', d₀, d₁, e₀, e₁, n, hdF, hdC, hdA,
    not_not.mp hNf, not_not.mp hn, hm⟩

/-- While every dimension of `F` and of `C` is below `2^31`, a mismatch of element types,
column counts, lengths or the element type of `Counts` makes one of the checks throw. -/
theorem checkArgs_rejects_in_int_range {F C A Counts : NdArray}
    (hF : ∀ d ∈ F.dims, d < 2147483648) (hC : ∀ d ∈ C.dims, d < 2147483648)
    (h : F.dtype ≠ C.dtype ∨ F.dims[1]? ≠ C.dims[1]? ∨ A.dims[0]? ≠ F.dims[0]? ∨
      (∃ m, Counts.dims[0]? = some m ∧ C.dims[0]? ≠ some m) ∨
      Counts.dtype ≠ NpyType.NPY_INT32) :
    ∃ msg, checkArgs [PyObject.ndarray F, PyObject.ndarray C, PyObject.ndarray A,
      PyObject.ndarray Counts] = some (Checked.thrown msg) := by
  cases hr : checkArgs [PyObject.ndarray F, PyObject.ndarray C, PyObject.ndarray A,
      PyObject.ndarray Counts] with
  | none =>
    obtain ⟨h1, h2, d₀, d₁, e₀, e₁, n, hdF, hdC, hdA, hNf, hn, hm⟩ := checkArgs_undefined hr
    have b0 : d₀ < 2147483648 := hF d₀ (by simp [hdF])
    have b1 : d₁ < 2147483648 := hF d₁ (by simp [hdF])
    rw [narrow_of_lt b1] at hNf
    rw [narrow_of_lt b0] at hn
    have e1 : e₁ = d₁ := by exact_mod_cast hNf
    have e2 : n = d₀ := by exact_mod_cast hn
    rcases h with h | h | h | ⟨m, hm', _⟩ | h
    · exact absurd h2 h
    · simp [hdF, hdC, e1] at h
    · simp [hdF, hdA, e2] at h
    · rw [hm] at hm'; simp at hm'
    · exact absurd h1 h
  | some r =>
    cases r with
    | thrown msg => exact ⟨msg, rfl⟩
    | passed a =>
      obtain ⟨hargs, h1, h2, d₀, d₁, e₀, hdF, hdC, hdA, hm, hN, hNf, hk⟩ := checkArgs_passed hr
      simp only [List.cons.injEq, PyObject.ndarray.injEq, and_true] at hargs
      obtain ⟨rfl, rfl, rfl, rfl⟩ := hargs
      have b0 : d₀ < 2147483648 := hF d₀ (by simp [hdF])
      have b1 : d₁ < 2147483648 := hF d₁ (by simp [hdF])
      have b2 : e₀ < 2147483648 := hC e₀ (by simp [hdC])
      rw [narrow_of_lt b0] at hN
      rw [narrow_of_lt b1] at hNf
      rw [narrow_of_lt b2] at hk
      have e0 : d₀ = a.N := by exact_mod_cast hN
      have e1 : d₁ = a.Nf := by exact_mod_cast hNf
      have e2 : e₀ = a.k := by exact_mod_cast hk
      rcases h with h | h | h | ⟨m, hm', hne⟩ | h
      · exact absurd h2 h
      · simp [hdF, hdC, e1] at h
      · simp [hdF, hdA, e0] at h
      · rw [hm] at hm'
        simp [hdC, e2] at hne
        simp at hm'
        omega
      · exact absurd h1 h

/-- While every dimension of `F` and of `C` is below `2^31`, a mismatch of element types,
column counts, lengths or the element type of `Counts` makes `py_computecentroids` return
`0` with a `RuntimeError` set, without running the kernel and with every argument left
as it was. -/
theorem py_computecentroids_rejects_in_int_range (workers : List (List Nat))
    (F C A Counts : NdArray)
    (hF : ∀ d ∈ F.dims, d < 2147483648) (hC : ∀ d ∈ C.dims, d < 2147483648)
    (h : F.dtype ≠ C.dtype ∨ F.dims[1]? ≠ C.dims[1]? ∨ A.dims[0]? ≠ F.dims[0]? ∨
      (∃ m, Counts.dims[0]? = some m ∧ C.dims[0]? ≠ some m) ∨
      Counts.dtype ≠ NpyType.NPY_INT32) :
    ∃ msg, py_computecentroids workers [PyObject.ndarray F, PyObject.ndarray C,
        PyObject.ndarray A, PyObject.ndarray Counts] =
      some ⟨PyValue.raised msg, [PyObject.ndarray F, PyObject.ndarray C,
        PyObject.ndarray A, PyObject.ndarray Counts], 0⟩ := by
  obtain ⟨msg, hmsg⟩ := checkArgs_rejects_in_int_range hF hC h
  exact ⟨msg, by simp only [py_computecentroids, hmsg]⟩

theorem zeroClusters_eq_zero (counts : List Int) (k : Nat) :
    zeroClusters counts k = 0 ↔ ∀ c, c < k → counts[c]? ≠ some 0 := by
  unfold zeroClusters
  rw [List.length_eq_zero, List.filter_eq_nil_iff]
  constructor
  · intro h c hc
    simpa using h c (List.mem_range.mpr hc)
  · intro h c hc
    simpa using h c (List.mem_range.mp hc)

/-! ## The claims on degenerate inputs, the assignment, the region and the Python layer -/

/-- C11. With `N = 0`, for any `k`, `Nf`, any schedule of the empty loop and any prior
contents of `C` and `Counts` of the right shapes, `computecentroids` returns (so it has
divided by no zero count), leaves `C` and `Counts` all zero and returns `k`. -/
theorem computecentroids_no_points (workers : List (List Nat)) (f centroids : List ℚ)
    (A counts : List Int) (Nf k : Nat)
    (hv : ValidUpdate workers f centroids A counts 0 Nf k) :
    computecentroids workers f centroids A counts Nf k =
      some (List.replicate (k * Nf) (0 : ℚ), List.replicate k (0 : Int), (k : Int)) :=
  computecentroids_all_empty hv (fun c _ => clusterSize_range_zero A c)

/-- C11 on scenario 3: `N = 0`, `k = 3`, two idle workers, prior `C = [1,…,6]` and
`Counts = [7,7,7]`; the result is `C` all zero, `Counts = [0,0,0]`, `zeroCount = 3`. -/
theorem computecentroids_no_points_witness :
    computecentroids [[], []] [] [1, 2, 3, 4, 5, 6] [] [7, 7, 7] 2 3 =
      some ([0, 0, 0, 0, 0, 0], [0, 0, 0], 3) :=
  computecentroids_no_points [[], []] [] [1, 2, 3, 4, 5, 6] [] [7, 7, 7] 2 3
    ⟨List.Perm.refl _, rfl, rfl, rfl, rfl, by decide⟩

/-- C12. If every label is at least `k`, then on every valid input `computecentroids`
returns, leaves `Counts` and `C` all zero and returns `k`. -/
theorem computecentroids_all_labels_high (workers : List (List Nat)) (f centroids : List ℚ)
    (A counts : List Int) (N Nf k : Nat)
    (hv : ValidUpdate workers f centroids A counts N Nf k)
    (hhigh : ∀ a ∈ A, (k : Int) ≤ a) :
    computecentroids workers f centroids A counts Nf k =
      some (List.replicate (k * Nf) (0 : ℚ), List.replicate k (0 : Int), (k : Int)) :=
  computecentroids_all_empty hv (fun c hc => clusterSize_of_high hhigh _ c hc)

/-- C12 on scenario 4: `N = 1`, `k = 2`, `A = [5]`; the result is `Counts = [0,0]`,
`C = [0,0]`, `zeroCount = 2`. -/
theorem computecentroids_all_labels_high_witness :
    computecentroids [[0]] [3] [8, 9] [5] [7, 7] 1 2 = some ([0, 0], [0, 0], 2) :=
  computecentroids_all_labels_high [[0]] [3] [8, 9] [5] [7, 7] 1 1 2
    ⟨List.Perm.refl _, rfl, rfl, rfl, rfl, by decide⟩ (by decide)

/-- C13. For `F` and `C` of the right shapes, `assignclass_euclidian` returns the same
label vector whatever `A` held before and in whatever order the points are processed,
and running it again on its own output returns that label vector once more. -/
theorem assign_deterministic (f centroids : List ℚ) (A₁ A₂ : List Int) (N Nf k : Nat)
    (order : List Nat) (hf : f.length = N * Nf) (hc : centroids.length = k * Nf)
    (h₁ : A₁.length = N) (h₂ : A₂.length = N) (ho : order.Perm (List.range N)) :
    ∃ A, assignclass_euclidian f centroids A₁ N Nf k = some (A, true) ∧
      assignclass_euclidian f centroids A₂ N Nf k = some (A, true) ∧
      assignclass_order order f centroids A₁ Nf k = some (A, true) ∧
      assignclass_euclidian f centroids A N Nf k = some (A, true) :=
  ⟨List.replicate N 1, assign_loop_spec hf hc h₁, assign_loop_spec hf hc h₂,
    assign_order_spec hf hc h₁ ho, assign_loop_spec hf hc (by simp)⟩

/-- C13 on scenario 1 with two prior label vectors and the order `3, 1, 0, 2`. -/
theorem assign_deterministic_witness :
    ∃ A, assignclass_euclidian [0, 1, 10, 11] [0, 10] [0, 0, 0, 0] 4 1 2 = some (A, true) ∧
      assignclass_euclidian [0, 1, 10, 11] [0, 10] [7, -3, 2, 9] 4 1 2 = some (A, true) ∧
      assignclass_order [3, 1, 0, 2] [0, 1, 10, 11] [0, 10] [0, 0, 0, 0] 1 2
        = some (A, true) ∧
      assignclass_euclidian [0, 1, 10, 11] [0, 10] A 4 1 2 = some (A, true) :=
  assign_deterministic [0, 1, 10, 11] [0, 10] [0, 0, 0, 0] [7, -3, 2, 9] 4 1 2 [3, 1, 0, 2]
    rfl rfl rfl rfl (by decide)

/-- C14 (defect). `F` of shape `(2^32+1, 0)` and `A` of shape `(1,)`: the length of `A`
differs from the number of rows of `F`, yet the checks pass, because line 173 narrows the
row count to the `int` `N = 1` before line 177 compares it.  The kernel runs with
`N = 1`, `Nf = 0`, `k = 1`, `Counts` changes from `[7]` to `[1]`, and the call returns
`False` instead of raising. -/
theorem py_computecentroids_accepts_wrong_size :
    narrow 4294967297 = 1 ∧
    checkArgs
        [PyObject.ndarray ⟨NpyType.NPY_FLOAT, true, [4294967297, 0], [], []⟩,
          PyObject.ndarray ⟨NpyType.NPY_FLOAT, true, [1, 0], [], []⟩,
          PyObject.ndarray ⟨NpyType.NPY_INT32, true, [1], [], [0]⟩,
          PyObject.ndarray ⟨NpyType.NPY_INT32, true, [1], [], [7]⟩] =
      some (Checked.passed
        ⟨⟨NpyType.NPY_FLOAT, true, [4294967297, 0], [], []⟩,
          ⟨NpyType.NPY_FLOAT, true, [1, 0], [], []⟩,
          ⟨NpyType.NPY_INT32, true, [1], [], [0]⟩,
          ⟨NpyType.NPY_INT32, true, [1], [], [7]⟩, 1, 0, 1⟩) ∧
    py_computecentroids [[0]]
        [PyObject.ndarray ⟨NpyType.NPY_FLOAT, true, [4294967297, 0], [], []⟩,
          PyObject.ndarray ⟨NpyType.NPY_FLOAT, true, [1, 0], [], []⟩,
          PyObject.ndarray ⟨NpyType.NPY_INT32, true, [1], [], [0]⟩,
          PyObject.ndarray ⟨NpyType.NPY_INT32, true, [1], [], [7]⟩] =
      some ⟨PyValue.returned false,
        [PyObject.ndarray ⟨NpyType.NPY_FLOAT, true, [4294967297, 0], [], []⟩,
          PyObject.ndarray ⟨NpyType.NPY_FLOAT, true, [1, 0], [], []⟩,
          PyObject.ndarray ⟨NpyType.NPY_INT32, true, [1], [], [0]⟩,
          PyObject.ndarray ⟨NpyType.NPY_INT32, true, [1], [], [1]⟩], 1⟩ := by
  refine ⟨by decide, by decide!, by decide!⟩

/-- C15. For `F` and `C` of the right shapes, `k ≥ 1` and a point `i < N`, the scan over
the clusters ends with `best_cluster = b` and `min_distance = d(i,b)`, where `b < k`
minimises the squared distance `d(i,c) = Σ_j (F[i,j] - C[c,j])²` over `c < k` and every
cluster before `b` is strictly farther: `b` is the lowest-indexed minimiser. -/
theorem scanClusters_lowest_minimiser (f centroids : List ℚ) (N Nf k i : Nat)
    (hf : f.length = N * Nf) (hc : centroids.length = k * Nf) (hi : i < N) (hk : 0 < k) :
    ∃ b, b < k ∧
      scanClusters f centroids Nf k i = some ((b : Int), sqDist f Nf i (row centroids Nf b)) ∧
      (∀ c, c < k → sqDist f Nf i (row centroids Nf b) ≤ sqDist f Nf i (row centroids Nf c)) ∧
      (∀ c, c < b → sqDist f Nf i (row centroids Nf b) < sqDist f Nf i (row centroids Nf c)) :=
  scanClusters_spec hf hc hi hk

/-- C15 on a tie: the point `5` is at squared distance `25` from both centroids `0` and
`10`; the scan keeps cluster `0`. -/
theorem scanClusters_lowest_minimiser_witness :
    (∃ b : Nat, b < 2 ∧
      scanClusters [5] [0, 10] 1 2 0 = some ((b : Int), sqDist [5] 1 0 (row [0, 10] 1 b)) ∧
      (∀ c, c < 2 → sqDist [5] 1 0 (row [0, 10] 1 b) ≤ sqDist [5] 1 0 (row [0, 10] 1 c)) ∧
      (∀ c, c < b → sqDist [5] 1 0 (row [0, 10] 1 b) < sqDist [5] 1 0 (row [0, 10] 1 c))) ∧
    scanClusters [5] [0, 10] 1 2 0 = some (0, 25) :=
  ⟨scanClusters_lowest_minimiser [5] [0, 10] 1 1 2 0 rfl rfl (by decide) (by decide),
    by decide!⟩

/-- C16. For `F` and `A` of the right shapes without negative labels and every schedule
of the `N` points among workers (contiguous chunks in any worker order included), the
parallel region started on zero-filled `Counts` and `C` returns exactly what one
sequential pass over all points returns: `Counts[c]` is the number of points labelled
`c` and `C[c,j]` the sum of `F[i,j]` over them. -/
theorem parallelRegion_refines_sequentialPass (workers : List (List Nat)) (f : List ℚ)
    (A : List Int) (N Nf k : Nat) (hf : f.length = N * Nf) (hA : A.length = N)
    (hpos : ∀ a ∈ A, (0 : Int) ≤ a) (hw : IsSchedule workers N) :
    ∃ cnt ck, parallelRegion workers f A Nf k
        (List.replicate k (0 : Int), List.replicate (k * Nf) (0 : ℚ)) = some (cnt, ck) ∧
      sequentialPass f A N Nf k = some (cnt, ck) ∧
      (∀ c, c < k → cnt[c]? = some (clusterSize A (List.range N) c)) ∧
      (∀ c j, c < k → j < Nf →
        ck[c * Nf + j]? = some (clusterSum f A Nf (List.range N) c j)) := by
  obtain ⟨cnt, ck, hreg, hcnt, hck⟩ := parallelRegion_spec (k := k) hf hA hpos hw
  obtain ⟨cnt', ck', hseq, hcnt', hck'⟩ := sequentialPass_spec (k := k) hf hA hpos
  have e1 : cnt' = cnt := hcnt'.uniqueVec hcnt
  have e2 : ck' = ck := hck'.uniqueMat hck
  subst e1; subst e2
  exact ⟨_, _, hreg, hseq, hcnt.2, hck.2⟩

/-- C16 on scenario 1 split into the chunks `[0,1]` and `[2,3]`, merged in the order
second worker, first worker. -/
theorem parallelRegion_refines_sequentialPass_witness :
    ∃ cnt ck, parallelRegion [[2, 3], [0, 1]] [0, 1, 10, 11] [0, 0, 1, 1] 1 2
        (List.replicate 2 (0 : Int), List.replicate (2 * 1) (0 : ℚ)) = some (cnt, ck) ∧
      sequentialPass [0, 1, 10, 11] [0, 0, 1, 1] 4 1 2 = some (cnt, ck) ∧
      (∀ c, c < 2 → cnt[c]? = some (clusterSize [0, 0, 1, 1] (List.range 4) c)) ∧
      (∀ c j, c < 2 → j < 1 →
        ck[c * 1 + j]? = some (clusterSum [0, 1, 10, 11] [0, 0, 1, 1] 1 (List.range 4) c j)) :=
  parallelRegion_refines_sequentialPass [[2, 3], [0, 1]] [0, 1, 10, 11] [0, 0, 1, 1] 4 1 2
    rfl rfl (by decide) (by unfold IsSchedule; decide)

/-- C17. For `F`, `C` and `A` of the right shapes, whatever their contents,
`assignclass_euclidian` returns `true` and leaves `A[i] = 1` for every `i < N`. -/
theorem assign_writes_one (f centroids : List ℚ) (A : List Int) (N Nf k : Nat)
    (hf : f.length = N * Nf) (hc : centroids.length = k * Nf) (hA : A.length = N) :
    assignclass_euclidian f centroids A N Nf k = some (List.replicate N 1, true) :=
  assign_loop_spec hf hc hA

/-- C17 on scenario 1: the labels come out as `[1,1,1,1]`. -/
theorem assign_writes_one_witness :
    assignclass_euclidian [0, 1, 10, 11] [0, 10] [0, 0, 0, 0] 4 1 2
      = some ([1, 1, 1, 1], true) :=
  assign_writes_one [0, 1, 10, 11] [0, 10] [0, 0, 0, 0] 4 1 2 rfl rfl rfl

theorem py_computecentroids_of_kernel {workers : List (List Nat)} {args : List PyObject}
    {a : KernelArgs} {C : List ℚ} {Counts : List Int} {z : Int}
    (hpass : checkArgs args = some (Checked.passed a))
    (hty : a.fmatrix.dtype = NpyType.NPY_FLOAT ∨ a.fmatrix.dtype = NpyType.NPY_DOUBLE)
    (hk : computecentroids workers a.fmatrix.floats a.centroids.floats a.assignments.ints
      a.counts.ints a.Nf a.k = some (C, Counts, z)) :
    py_computecentroids workers args =
      some ⟨PyValue.returned (decide (z ≠ 0)),
        [PyObject.ndarray a.fmatrix, PyObject.ndarray { a.centroids with floats := C },
          PyObject.ndarray a.assignments, PyObject.ndarray { a.counts with ints := Counts }],
        1⟩ := by
  simp only [py_computecentroids, hpass, hty, if_true, hk]

theorem py_computecentroids_kernel_of_some {workers : List (List Nat)}
    {args : List PyObject} {a : KernelArgs} {r : PyReturn}
    (hpass : checkArgs args = some (Checked.passed a))
    (hty : a.fmatrix.dtype = NpyType.NPY_FLOAT ∨ a.fmatrix.dtype = NpyType.NPY_DOUBLE)
    (hr : py_computecentroids workers args = some r) :
    ∃ C Counts z, computecentroids workers a.fmatrix.floats a.centroids.floats
      a.assignments.ints a.counts.ints a.Nf a.k = some (C, Counts, z) := by
  cases hk : computecentroids workers a.fmatrix.floats a.centroids.floats a.assignments.ints
      a.counts.ints a.Nf a.k with
  | none => simp [py_computecentroids, hpass, hty, hk] at hr
  | some t => exact ⟨t.1, t.2.1, t.2.2, rfl⟩

theorem returned_true_iff (Counts : List Int) (k : Nat) (z : Int)
    (hz : z = (zeroClusters Counts k : Int)) :
    (PyValue.returned (decide (z ≠ 0)) = PyValue.returned true ↔
        ∃ c, c < k ∧ Counts[c]? = some 0) ∧
      (PyValue.returned (decide (z ≠ 0)) = PyValue.returned false ↔
        ∀ c, c < k → Counts[c]? ≠ some 0) := by
  have h0 : z = 0 ↔ ∀ c, c < k → Counts[c]? ≠ some 0 := by
    rw [hz, ← zeroClusters_eq_zero]
    exact_mod_cast Iff.rfl
  constructor
  · simp only [PyValue.returned.injEq, decide_eq_true_eq, ne_eq, h0]
    push_neg
    rfl
  · simp only [PyValue.returned.injEq, decide_eq_false_iff_not, ne_eq, not_not, h0]

/-- C18. On every valid input of `update` the call returns, and for every cluster `c < k`
with a positive final count and every vector `m` of length `Nf`, the sum over the points
labelled `c` of their squared distance to the written centroid row `C[c,:]` is at most
the same sum of squared distances to `m`. -/
theorem computecentroids_least_squares (workers : List (List Nat)) (f centroids : List ℚ)
    (A counts : List Int) (N Nf k : Nat)
    (hv : ValidUpdate workers f centroids A counts N Nf k) :
    ∃ C Counts z, computecentroids workers f centroids A counts Nf k = some (C, Counts, z) ∧
      ∀ c, c < k → ∀ n, Counts[c]? = some n → 0 < n → ∀ m : List ℚ, m.length = Nf →
        clusterCost f A N Nf c (row C Nf c) ≤ clusterCost f A N Nf c (fun j => m.getD j 0) := by
  obtain ⟨C, Counts, z, h, hCounts, hC⟩ := computecentroids_spec hv
  refine ⟨C, Counts, z, h, ?_⟩
  intro c hc n hn hpos m _
  rw [hCounts.2 c hc] at hn
  have hne : clusterSize A (List.range N) c ≠ 0 := by
    have := Option.some.inj hn
    omega
  have hrow : clusterCost f A N Nf c (row C Nf c) =
      clusterCost f A N Nf c (clusterMean f A N Nf c) := by
    apply clusterCost_congr
    intro j hj
    simp [row, List.getD_eq_getElem?_getD, hC.2 c j hc hj]
  rw [hrow]
  exact clusterCost_mean_le f A N Nf c _ hne

/-- C18 on scenario 1: both clusters of `F = [0,1,10,11]`, `A = [0,0,1,1]`. -/
theorem computecentroids_least_squares_witness :
    ∃ C Counts z, computecentroids [[0, 1], [2, 3]] [0, 1, 10, 11] [0, 10] [0, 0, 1, 1]
        [7, 7] 1 2 = some (C, Counts, z) ∧
      ∀ c, c < 2 → ∀ n, Counts[c]? = some n → 0 < n → ∀ m : List ℚ, m.length = 1 →
        clusterCost [0, 1, 10, 11] [0, 0, 1, 1] 4 1 c (row C 1 c) ≤
          clusterCost [0, 1, 10, 11] [0, 0, 1, 1] 4 1 c (fun j => m.getD j 0) :=
  computecentroids_least_squares [[0, 1], [2, 3]] [0, 1, 10, 11] [0, 10] [0, 0, 1, 1]
    [7, 7] 4 1 2 ⟨List.Perm.refl _, rfl, rfl, rfl, rfl, by decide⟩

/-- C19. Let the arguments pass the checks with element type `float32` or `float64`.  On a
valid input `py_computecentroids` returns a Python boolean: `True` exactly when some
cluster received no point, `False` exactly when every cluster received at least one.
And whenever it returns, on any such arguments, the kernel has returned and the value is
`True` exactly when some final `Counts[c]` is `0` and `False` exactly when none is: the
truth value of `zeroCount`, not the integer. -/
theorem py_computecentroids_truth_value (workers : List (List Nat)) (args : List PyObject)
    (a : KernelArgs) (hpass : checkArgs args = some (Checked.passed a))
    (hty : a.fmatrix.dtype = NpyType.NPY_FLOAT ∨ a.fmatrix.dtype = NpyType.NPY_DOUBLE) :
    (ValidUpdate workers a.fmatrix.floats a.centroids.floats a.assignments.ints
        a.counts.ints a.N a.Nf a.k →
      ∃ r, py_computecentroids workers args = some r ∧
        (r.value = PyValue.returned true ↔
          ∃ c, c < a.k ∧ clusterSize a.assignments.ints (List.range a.N) c = 0) ∧
        (r.value = PyValue.returned false ↔
          ∀ c, c < a.k → 0 < clusterSize a.assignments.ints (List.range a.N) c)) ∧
    ∀ r, py_computecentroids workers args = some r →
      ∃ C Counts z, computecentroids workers a.fmatrix.floats a.centroids.floats
          a.assignments.ints a.counts.ints a.Nf a.k = some (C, Counts, z) ∧
        r.args = [PyObject.ndarray a.fmatrix, PyObject.ndarray { a.centroids with floats := C },
          PyObject.ndarray a.assignments,
          PyObject.ndarray { a.counts with ints := Counts }] ∧
        (r.value = PyValue.returned true ↔ ∃ c, c < a.k ∧ Counts[c]? = some 0) ∧
        (r.value = PyValue.returned false ↔ ∀ c, c < a.k → Counts[c]? ≠ some 0) := by
  constructor
  · intro hv
    obtain ⟨C, Counts, z, hk, hCounts, _⟩ := computecentroids_spec hv
    obtain ⟨h1, h2⟩ := returned_true_iff Counts a.k z (computecentroids_zero_counts hk)
    refine ⟨_, py_computecentroids_of_kernel hpass hty hk, ?_, ?_⟩
    · rw [h1]
      constructor
      · rintro ⟨c, hc, h0⟩
        rw [hCounts.2 c hc] at h0
        exact ⟨c, hc, Option.some.inj h0⟩
      · rintro ⟨c, hc, h0⟩
        exact ⟨c, hc, by rw [hCounts.2 c hc, h0]⟩
    · rw [h2]
      have hnn : ∀ c, 0 ≤ clusterSize a.assignments.ints (List.range a.N) c := by
        intro c; simp [clusterSize]
      constructor
      · intro h c hc
        have := h c hc
        rw [hCounts.2 c hc] at this
        have hne : clusterSize a.assignments.ints (List.range a.N) c ≠ 0 :=
          fun e => this (by rw [e])
        have := hnn c
        omega
      · intro h c hc
        rw [hCounts.2 c hc]
        intro e
        have := h c hc
        have := Option.some.inj e
        omega
  · intro r hr
    obtain ⟨C, Counts, z, hk⟩ := py_computecentroids_kernel_of_some hpass hty hr
    rw [py_computecentroids_of_kernel hpass hty hk] at hr
    obtain rfl := Option.some.inj hr
    obtain ⟨h1, h2⟩ := returned_true_iff Counts a.k z (computecentroids_zero_counts hk)
    exact ⟨C, Counts, z, hk, rfl, h1, h2⟩

/-- C19 on scenario 2 (two empty clusters, the value is `True`, not `2`) and on
scenario 1 (no empty cluster, the value is `False`). -/
theorem py_computecentroids_truth_value_witness :
    (∃ r, py_computecentroids [[0, 1]]
        [PyObject.ndarray ⟨NpyType.NPY_FLOAT, true, [2, 2], [0, 0, 1, 1], []⟩,
          PyObject.ndarray ⟨NpyType.NPY_FLOAT, true, [3, 2], [0, 0, 5, 5, 9, 9], []⟩,
          PyObject.ndarray ⟨NpyType.NPY_INT32, true, [2], [], [0, 0]⟩,
          PyObject.ndarray ⟨NpyType.NPY_INT32, true, [3], [], [7, 7, 7]⟩] = some r ∧
      (r.value = PyValue.returned true ↔
        ∃ c, c < 3 ∧ clusterSize [0, 0] (List.range 2) c = 0) ∧
      (r.value = PyValue.returned false ↔
        ∀ c, c < 3 → 0 < clusterSize [0, 0] (List.range 2) c)) ∧
    py_computecentroids [[0, 1]]
        [PyObject.ndarray ⟨NpyType.NPY_FLOAT, true, [2, 2], [0, 0, 1, 1], []⟩,
          PyObject.ndarray ⟨NpyType.NPY_FLOAT, true, [3, 2], [0, 0, 5, 5, 9, 9], []⟩,
          PyObject.ndarray ⟨NpyType.NPY_INT32, true, [2], [], [0, 0]⟩,
          PyObject.ndarray ⟨NpyType.NPY_INT32, true, [3], [], [7, 7, 7]⟩] =
      some ⟨PyValue.returned true,
        [PyObject.ndarray ⟨NpyType.NPY_FLOAT, true, [2, 2], [0, 0, 1, 1], []⟩,
          PyObject.ndarray ⟨NpyType.NPY_FLOAT, true, [3, 2], [1 / 2, 1 / 2, 0, 0, 0, 0], []⟩,
          PyObject.ndarray ⟨NpyType.NPY_INT32, true, [2], [], [0, 0]⟩,
          PyObject.ndarray ⟨NpyType.NPY_INT32, true, [3], [], [2, 0, 0]⟩], 1⟩ ∧
    py_computecentroids [[0, 1], [2, 3]]
        [PyObject.ndarray ⟨NpyType.NPY_DOUBLE, true, [4, 1], [0, 1, 10, 11], []⟩,
          PyObject.ndarray ⟨NpyType.NPY_DOUBLE, true, [2, 1], [0, 10], []⟩,
          PyObject.ndarray ⟨NpyType.NPY_INT32, true, [4], [], [0, 0, 1, 1]⟩,
          PyObject.ndarray ⟨NpyType.NPY_INT32, true, [2], [], [7, 7]⟩] =
      some ⟨PyValue.returned false,
        [PyObject.ndarray ⟨NpyType.NPY_DOUBLE, true, [4, 1], [0, 1, 10, 11], []⟩,
          PyObject.ndarray ⟨NpyType.NPY_DOUBLE, true, [2, 1], [1 / 2, 21 / 2], []⟩,
          PyObject.ndarray ⟨NpyType.NPY_INT32, true, [4], [], [0, 0, 1, 1]⟩,
          PyObject.ndarray ⟨NpyType.NPY_INT32, true, [2], [], [2, 2]⟩], 1⟩ :=
  ⟨(py_computecentroids_truth_value [[0, 1]]
      [PyObject.ndarray ⟨NpyType.NPY_FLOAT, true, [2, 2], [0, 0, 1, 1], []⟩,
        PyObject.ndarray ⟨NpyType.NPY_FLOAT, true, [3, 2], [0, 0, 5, 5, 9, 9], []⟩,
        PyObject.ndarray ⟨NpyType.NPY_INT32, true, [2], [], [0, 0]⟩,
        PyObject.ndarray ⟨NpyType.NPY_INT32, true, [3], [], [7, 7, 7]⟩]
      ⟨⟨NpyType.NPY_FLOAT, true, [2, 2], [0, 0, 1, 1], []⟩,
        ⟨NpyType.NPY_FLOAT, true, [3, 2], [0, 0, 5, 5, 9, 9], []⟩,
        ⟨NpyType.NPY_INT32, true, [2], [], [0, 0]⟩,
        ⟨NpyType.NPY_INT32, true, [3], [], [7, 7, 7]⟩, 2, 2, 3⟩
      (by decide!) (Or.inl rfl)).1
      ⟨List.Perm.refl _, rfl, rfl, rfl, rfl, by decide⟩,
    by decide!, by decide!⟩

end Kmeans
